import Mathlib

/-!
Verification of the Olist ETL script (src/olist.py) against its specification.

The script is shallowly embedded: pandas dataframes become `DF` (a column
schema plus rows, each row an association list from column name to `Val`),
the dict of raw tables becomes `Tables`, and each transformer of olist.py
becomes a Lean function of the same name.  Fallible pandas operations
(`KeyError` lookups, timestamp parsing) return `Option`; the orchestrator
`main` with its single try/except is modelled with `Except` carrying the
world state (target tables, log file, console) reached before a failure.

Modelling scope, stated once here: numeric values are modelled as integers
(fractional literals are outside the model), `to_datetime` is modelled for
string, datetime and null inputs, and `merge` is modelled for frames whose
schemas share only the join key (the real Olist tables satisfy this; pandas
would disambiguate other overlaps with _x/_y suffixes, a behaviour the
script never relies on).
-/

set_option maxHeartbeats 1000000

namespace Olist

/-- A timestamp as produced by pandas `to_datetime`:
year-month-day hour:minute:second. -/
structure DT where
  year : Nat
  month : Nat
  day : Nat
  hour : Nat
  minute : Nat
  second : Nat
deriving DecidableEq, Repr

/-- A cell value of a tabular dataset: null (NaN/NaT/None), a string,
a numeric value, or a datetime. -/
inductive Val where
  | null : Val
  | str : String → Val
  | int : Int → Val
  | dt : DT → Val
deriving DecidableEq, Repr

/-- A row: association list from column name to value. -/
abbrev Row := List (String × Val)

/-- A dataframe: ordered column schema plus rows. -/
structure DF where
  cols : List String
  rows : List Row
deriving DecidableEq, Repr

/-- The dict of raw tables as returned by `extract_all_tables`. -/
abbrev Tables := List (String × DF)

/-- Reading a cell `row[c]`: first entry with the column name, null when absent. -/
def getVal (r : Row) (c : String) : Val :=
  match r.find? (fun p => p.1 == c) with
  | some p => p.2
  | none => Val.null

/-- Column assignment `df[c] = ...` at row level: replace every entry named `c`. -/
def setCol (r : Row) (c : String) (v : Val) : Row :=
  r.map (fun p => if p.1 = c then (c, v) else p)

/-- `drop_duplicates` keeping the first row per key `f a`, generic in the key
function; `seen` accumulates the key values already kept. -/
def dedupKeyed {α : Type} (f : α → Val) : List Val → List α → List α
  | _, [] => []
  | seen, a :: l =>
    if f a ∈ seen then dedupKeyed f seen l
    else a :: dedupKeyed f (f a :: seen) l

/-- `df.drop_duplicates(subset=key)` (keep='first', the pandas default). -/
def dedupBy (key : String) (rows : List Row) : List Row :=
  dedupKeyed (fun r => getVal r key) [] rows

/-- `series.drop_duplicates()` on a column of values. -/
def dedupVals (l : List Val) : List Val :=
  dedupKeyed id [] l

/-- The all-null row fragment a left merge fills in for an unmatched left row. -/
def nullRow (cs : List String) : Row :=
  cs.map (fun c => (c, Val.null))

/-- Drop the join-key entries of a right row (pandas keeps a single key column,
the left one, in the merge result). -/
def stripKey (key : String) (r : Row) : Row :=
  r.filter (fun p => p.1 != key)

/-- One left row's contribution to `left.merge(right, on=key, how='left')`:
its matches in right order, or a single null-filled row when unmatched. -/
def mergeRowOne (key : String) (rrows : List Row) (rcols : List String) (l : Row) :
    List Row :=
  if rrows.filter (fun r => getVal r key == getVal l key) = [] then
    [l ++ nullRow (rcols.erase key)]
  else
    (rrows.filter (fun r => getVal r key == getVal l key)).map
      (fun r => l ++ stripKey key r)

/-- Rows of a left merge: left row order, fan-out within each left row. -/
def mergeRows (key : String) (lrows rrows : List Row) (rcols : List String) :
    List Row :=
  lrows.flatMap (mergeRowOne key rrows rcols)

/-- `ldf.merge(rdf, on=key, how='left')`, for frames whose schemas share only
the key column (see the modelling note at the top of the file). -/
def merge (ldf rdf : DF) (key : String) : Option DF :=
  if key ∈ ldf.cols ∧ key ∈ rdf.cols ∧ ∀ c ∈ ldf.cols, c ∈ rdf.cols → c = key then
    some ⟨ldf.cols ++ rdf.cols.erase key, mergeRows key ldf.rows rdf.rows rdf.cols⟩
  else none

/-- One row of a column projection `df[cs]`. -/
def projRow (cs : List String) (r : Row) : Row :=
  cs.map (fun c => (c, getVal r c))

/-- `df[cs]`: column projection; `KeyError` (none) when a column is missing. -/
def project (df : DF) (cs : List String) : Option DF :=
  if ∀ c ∈ cs, c ∈ df.cols then some ⟨cs, df.rows.map (projRow cs)⟩ else none

/-- Parse a decimal digit sequence (structural recursion, kernel-reducible). -/
def digitsToNat : Nat → List Char → Option Nat
  | acc, [] => some acc
  | acc, c :: cs =>
    if c.isDigit then digitsToNat (acc * 10 + (c.toNat - 48)) cs else none

/-- Parse a nonempty digit string. -/
def parseNat : List Char → Option Nat
  | [] => none
  | l => digitsToNat 0 l

/-- Parse an optionally negated digit string. -/
def parseInt : List Char → Option Int
  | '-' :: l => (parseNat l).map (fun n => -(n : Int))
  | l => (parseNat l).map (fun n => (n : Int))

/-- Split a character list on a separator (own structural version of
`String.splitOn`, used so that proofs can evaluate it). -/
def splitChar (sep : Char) : List Char → List (List Char)
  | [] => [[]]
  | c :: cs =>
    let r := splitChar sep cs
    if c = sep then [] :: r
    else
      match r with
      | [] => [[c]]
      | g :: gs => (c :: g) :: gs

/-- Parse "YYYY-MM-DD". -/
def parseDate (l : List Char) : Option (Nat × Nat × Nat) :=
  match splitChar '-' l with
  | [ys, ms, ds] => do
    let y ← parseNat ys
    let m ← parseNat ms
    let d ← parseNat ds
    if 1 ≤ m ∧ m ≤ 12 ∧ 1 ≤ d ∧ d ≤ 31 then some (y, m, d) else none
  | _ => none

/-- Parse "HH:MM:SS". -/
def parseTime (l : List Char) : Option (Nat × Nat × Nat) :=
  match splitChar ':' l with
  | [hs, ms, ss] => do
    let h ← parseNat hs
    let m ← parseNat ms
    let s ← parseNat ss
    if h ≤ 23 ∧ m ≤ 59 ∧ s ≤ 59 then some (h, m, s) else none
  | _ => none

/-- Parse "YYYY-MM-DD" or "YYYY-MM-DD HH:MM:SS". -/
def parseDT (s : String) : Option DT :=
  match splitChar ' ' s.data with
  | [d] => (parseDate d).map (fun p => ⟨p.1, p.2.1, p.2.2, 0, 0, 0⟩)
  | [d, t] => do
    let dp ← parseDate d
    let tp ← parseTime t
    some ⟨dp.1, dp.2.1, dp.2.2, tp.1, tp.2.1, tp.2.2⟩
  | _ => none

/-- `pd.to_datetime` on one cell: None becomes NaT (null), datetimes pass
through, strings are parsed; failure is a raised error (none). -/
def toDatetimeVal : Val → Option Val
  | Val.null => some Val.null
  | Val.dt t => some (Val.dt t)
  | Val.str s => (parseDT s).map Val.dt
  | Val.int _ => none

/-- `df[c] = pd.to_datetime(df[c])`: in-place parse of one column. -/
def parseCol (df : DF) (c : String) : Option DF :=
  if c ∈ df.cols then
    (df.rows.mapM (fun r => (toDatetimeVal (getVal r c)).map (fun v => setCol r c v))).map
      (fun rs => DF.mk df.cols rs)
  else none

/-- The numeric parse underlying `pd.to_numeric`. -/
def numParse? : Val → Option Int
  | Val.int n => some n
  | Val.str s => parseInt s.data
  | _ => none

/-- `pd.to_numeric(v, errors='coerce')`: the parsed number, null when the
value cannot be parsed; total, never raises. -/
def coerceNum (v : Val) : Val :=
  match numParse? v with
  | some n => Val.int n
  | none => Val.null

/-- `df[c] = pd.to_numeric(df[c], errors='coerce')`. -/
def coerceColumn (df : DF) (c : String) : DF :=
  ⟨df.cols, df.rows.map (fun r => setCol r c (coerceNum (getVal r c)))⟩

/-- Truncate a timestamp to its calendar date (`.dt.date` re-wrapped by
`pd.to_datetime`, i.e. midnight of the same day). -/
def midnight (t : DT) : DT :=
  { t with hour := 0, minute := 0, second := 0 }

/-- `.dt.date` on one cell: NaT stays NaT. -/
def dateVal : Val → Val
  | Val.dt t => Val.dt (midnight t)
  | _ => Val.null

/-- Day of week with Monday = 0 (the pandas `.dt.weekday` convention),
via Zeller's congruence. -/
def weekdayMon0 (y m d : Nat) : Nat :=
  let yy := if m < 3 then y - 1 else y
  let mm := if m < 3 then m + 12 else m
  let k := yy % 100
  let j := yy / 100
  (d + (13 * (mm + 1)) / 5 + k + k / 4 + j / 4 + 5 * j + 5) % 7

/-- `.dt.day` on one cell. -/
def dayVal : Val → Val
  | Val.dt t => Val.int t.day
  | _ => Val.null

/-- `.dt.month` on one cell. -/
def monthVal : Val → Val
  | Val.dt t => Val.int t.month
  | _ => Val.null

/-- `.dt.year` on one cell. -/
def yearVal : Val → Val
  | Val.dt t => Val.int t.year
  | _ => Val.null

/-- `.dt.weekday` on one cell. -/
def weekdayVal : Val → Val
  | Val.dt t => Val.int (weekdayMon0 t.year t.month t.day)
  | _ => Val.null

/-- Zero-padded two-digit rendering. -/
def pad2 (n : Nat) : String :=
  if n < 10 then "0" ++ toString n else toString n

/-- String rendering of a timestamp, for `astype(str)`. -/
def fmtDT (t : DT) : String :=
  toString t.year ++ "-" ++ pad2 t.month ++ "-" ++ pad2 t.day ++ " " ++
    pad2 t.hour ++ ":" ++ pad2 t.minute ++ ":" ++ pad2 t.second

/-- `astype(str)` on one cell; NaN renders as the string "nan" (pandas). -/
def valToStr : Val → Val
  | Val.null => Val.str "nan"
  | Val.str s => Val.str s
  | Val.int n => Val.str (toString n)
  | Val.dt t => Val.str (fmtDT t)

/-- `transform_dim_customers` (olist.py line 58): deduplicate on customer_id,
then cast customer_unique_id to text.  `drop_duplicates` returns a copy, so
the input frame is not touched; reading a missing column raises (none). -/
def transform_dim_customers (df : DF) : Option DF :=
  if "customer_id" ∈ df.cols ∧ "customer_unique_id" ∈ df.cols then
    some ⟨df.cols,
      (dedupBy "customer_id" df.rows).map
        (fun r => setCol r "customer_unique_id" (valToStr (getVal r "customer_unique_id")))⟩
  else none

/-- `transform_dim_sellers` (olist.py line 63): deduplicate on seller_id. -/
def transform_dim_sellers (df : DF) : Option DF :=
  if "seller_id" ∈ df.cols then some ⟨df.cols, dedupBy "seller_id" df.rows⟩
  else none

/-- `transform_dim_products` (olist.py line 66): left-join the category
translation onto products, then deduplicate on product_id. -/
def transform_dim_products (products_df translation_df : DF) : Option DF := do
  let merged ← merge products_df translation_df "product_category_name"
  if "product_id" ∈ merged.cols then
    some ⟨merged.cols, dedupBy "product_id" merged.rows⟩
  else none

/-- Columns of dim_date, in construction order. -/
def dateCols : List String :=
  ["date", "day", "month", "year", "weekday"]

/-- One dim_date row for a (possibly NaT) date value. -/
def mkDateRow (v : Val) : Row :=
  [("date", v), ("day", dayVal v), ("month", monthVal v), ("year", yearVal v),
   ("weekday", weekdayVal v)]

/-- `transform_dim_date` (olist.py line 70).  The first component of the
result is the input orders frame as the caller sees it afterwards: the
in-place `orders_df['order_purchase_timestamp'] = pd.to_datetime(...)` has
replaced the timestamp column. -/
def transform_dim_date (orders_df : DF) : Option (DF × DF) := do
  let orders1 ← parseCol orders_df "order_purchase_timestamp"
  let dates := dedupVals (orders1.rows.map
    (fun r => dateVal (getVal r "order_purchase_timestamp")))
  pure (orders1, ⟨dateCols, dates.map mkDateRow⟩)

/-- The 15 projected fact columns (olist.py line 92), in order. -/
def factCols : List String :=
  ["order_id", "customer_id", "order_purchase_timestamp", "order_approved_at",
   "order_delivered_carrier_date", "order_delivered_customer_date",
   "order_estimated_delivery_date", "product_id", "seller_id", "price",
   "freight_value", "payment_type", "payment_installments", "payment_value",
   "review_score"]

/-- `dfs[name]` lookup (KeyError when absent). -/
def lookupTable (dfs : Tables) (name : String) : Option DF :=
  (dfs.find? (fun p => p.1 == name)).map (fun p => p.2)

/-- Replace the frame stored under an existing name (the in-place mutation of
a frame held in the dict is seen by later readers of `dfs[name]`). -/
def setTable (dfs : Tables) (name : String) (df : DF) : Tables :=
  dfs.map (fun p => if p.1 = name then (name, df) else p)

/-- `transform_fact_orders` (olist.py line 81): parse order timestamps (in
place, hence the returned `Tables`), three sequential left joins on order_id,
project to the 15 fact columns, coerce payment_value and review_score. -/
def transform_fact_orders (dfs : Tables) : Option (Tables × DF) := do
  let orders ← lookupTable dfs "olist_orders_dataset"
  let orders1 ← parseCol orders "order_purchase_timestamp"
  let dfs1 := setTable dfs "olist_orders_dataset" orders1
  let items ← lookupTable dfs1 "olist_order_items_dataset"
  let payments ← lookupTable dfs1 "olist_order_payments_dataset"
  let reviews ← lookupTable dfs1 "olist_order_reviews_dataset"
  let m1 ← merge orders1 items "order_id"
  let m2 ← merge m1 payments "order_id"
  let m3 ← merge m2 reviews "order_id"
  let projected ← project m3 factCols
  let step1 := coerceColumn projected "payment_value"
  pure (dfs1, coerceColumn step1 "review_score")

/-- Observable state of one run: loaded target tables, the persistent log
file, and the console. -/
structure World where
  target : List (String × DF)
  log : List String
  console : List String
deriving DecidableEq, Repr

/-- State before any load. -/
def emptyWorld : World := ⟨[], [], []⟩

/-- `to_sql(..., if_exists='replace')` semantics on the target catalog. -/
def replaceTable (t : List (String × DF)) (name : String) (df : DF) :
    List (String × DF) :=
  if t.any (fun p => p.1 == name) then
    t.map (fun p => if p.1 = name then (name, df) else p)
  else t ++ [(name, df)]

/-- `load_table` (olist.py line 107): write, one log line, one console line.
A write failure raises, carrying the world reached so far. -/
def loadTable (loadFails : String → Bool) (df : DF) (name : String) (w : World) :
    Except (String × World) World :=
  if loadFails name then Except.error ("write failed: " ++ name, w)
  else Except.ok
    { target := replaceTable w.target name df
      log := w.log ++ ["INFO Loaded table: " ++ name]
      console := w.console ++ ["Loaded: " ++ name] }

/-- Lift a fallible pandas step into the body, recording the world at the
raise point. -/
def orFail {α : Type} (o : Option α) (msg : String) (w : World) :
    Except (String × World) α :=
  match o with
  | some a => Except.ok a
  | none => Except.error (msg, w)

/-- The body of `main`'s try block (olist.py lines 116-130): five transforms,
then five loads, in the script's order. -/
def runBody (dfs : Tables) (loadFails : String → Bool) (w0 : World) :
    Except (String × World) World := do
  let customers ← orFail (lookupTable dfs "olist_customers_dataset")
    "KeyError: olist_customers_dataset" w0
  let dimCustomers ← orFail (transform_dim_customers customers)
    "KeyError in transform_dim_customers" w0
  let sellers ← orFail (lookupTable dfs "olist_sellers_dataset")
    "KeyError: olist_sellers_dataset" w0
  let dimSellers ← orFail (transform_dim_sellers sellers)
    "KeyError in transform_dim_sellers" w0
  let products ← orFail (lookupTable dfs "olist_products_dataset")
    "KeyError: olist_products_dataset" w0
  let translation ← orFail (lookupTable dfs "product_category_name_translation")
    "KeyError: product_category_name_translation" w0
  let dimProducts ← orFail (transform_dim_products products translation)
    "KeyError in transform_dim_products" w0
  let orders ← orFail (lookupTable dfs "olist_orders_dataset")
    "KeyError: olist_orders_dataset" w0
  let od ← orFail (transform_dim_date orders) "error in transform_dim_date" w0
  let dfs1 := setTable dfs "olist_orders_dataset" od.1
  let tf ← orFail (transform_fact_orders dfs1) "error in transform_fact_orders" w0
  let w1 ← loadTable loadFails dimCustomers "dim_customers" w0
  let w2 ← loadTable loadFails dimSellers "dim_sellers" w1
  let w3 ← loadTable loadFails dimProducts "dim_products" w2
  let w4 ← loadTable loadFails od.2 "dim_date" w3
  loadTable loadFails tf.2 "fact_orders" w4

/-- The operator-facing message of the except branch (olist.py line 134). -/
def terseMsg : String := "ETL job failed. Check log for details."

/-- The except branch: `logging.exception` then the terse print; the target
tables already loaded are untouched. -/
def handleFailure (e : String) (w : World) : World :=
  { w with
    log := w.log ++ ["ERROR ETL job failed: " ++ e]
    console := w.console ++ [terseMsg] }

/-- `def main()` (olist.py line 114): the try/except boundary.  Always
returns a `World`; no exception escapes. -/
def mainRun (dfs : Tables) (loadFails : String → Bool) : World :=
  match runBody dfs loadFails emptyWorld with
  | Except.ok w => w
  | Except.error ew => handleFailure ew.1 ew.2

/-- The whole script: the module-level `dfs = extract_all_tables(...)`
(olist.py line 54) runs outside any try block, then `main()` runs.  A failed
extract therefore propagates uncaught (the error branch). -/
def scriptRun (extracted : Except String Tables) (loadFails : String → Bool) :
    Except String World :=
  match extracted with
  | Except.error e => Except.error e
  | Except.ok dfs => Except.ok (mainRun dfs loadFails)

/-! ## Basic lemmas about rows and cells -/

theorem getVal_nil (c : String) : getVal [] c = Val.null := rfl

theorem getVal_cons (k : String) (v : Val) (r : Row) (c : String) :
    getVal ((k, v) :: r) c = if k = c then v else getVal r c := by
  by_cases h : k = c
  · subst h
    simp [getVal, List.find?]
  · have hb : (k == c) = false := by simpa using h
    simp [getVal, List.find?, hb, h]

theorem getVal_not_mem {r : Row} {c : String} (h : c ∉ r.map Prod.fst) :
    getVal r c = Val.null := by
  induction r with
  | nil => rfl
  | cons p r ih =>
    obtain ⟨k, v⟩ := p
    simp only [List.map_cons, List.mem_cons] at h
    push_neg at h
    rw [getVal_cons, if_neg (fun hk => h.1 hk.symm), ih h.2]

theorem getVal_append (r1 r2 : Row) (c : String) :
    getVal (r1 ++ r2) c =
      if c ∈ r1.map Prod.fst then getVal r1 c else getVal r2 c := by
  induction r1 with
  | nil => simp
  | cons p r ih =>
    obtain ⟨k, v⟩ := p
    by_cases hk : k = c
    · subst hk
      simp [getVal_cons]
    · rw [List.cons_append, getVal_cons, if_neg hk, ih, getVal_cons, if_neg hk]
      have hck : ¬c = k := fun h => hk h.symm
      simp only [List.map_cons, List.mem_cons]
      by_cases hc : c ∈ r.map Prod.fst
      · simp [hc]
      · simp [hc, hck]

theorem keys_setCol (r : Row) (c : String) (v : Val) :
    (setCol r c v).map Prod.fst = r.map Prod.fst := by
  induction r with
  | nil => rfl
  | cons p r ih =>
    obtain ⟨k, u⟩ := p
    show ((if k = c then (c, v) else (k, u)) :: setCol r c v).map Prod.fst = _
    by_cases hk : k = c
    · subst hk
      rw [if_pos rfl, List.map_cons, List.map_cons, ih]
    · rw [if_neg hk, List.map_cons, List.map_cons, ih]

theorem getVal_setCol_ne {c' c : String} (r : Row) (v : Val) (h : c' ≠ c) :
    getVal (setCol r c v) c' = getVal r c' := by
  induction r with
  | nil => rfl
  | cons p r ih =>
    obtain ⟨k, u⟩ := p
    show getVal ((if k = c then (c, v) else (k, u)) :: setCol r c v) c' = _
    by_cases hk : k = c
    · subst hk
      rw [if_pos rfl, getVal_cons, getVal_cons, if_neg (fun hc => h hc.symm),
        if_neg (fun hc => h hc.symm), ih]
    · rw [if_neg hk, getVal_cons, getVal_cons, ih]

theorem getVal_nullRow (cs : List String) (c : String) :
    getVal (nullRow cs) c = Val.null := by
  induction cs with
  | nil => rfl
  | cons a cs ih =>
    show getVal ((a, Val.null) :: nullRow cs) c = _
    rw [getVal_cons]
    split
    · rfl
    · exact ih

theorem not_mem_keys_stripKey (key : String) (r : Row) :
    key ∉ (stripKey key r).map Prod.fst := by
  simp only [stripKey, List.mem_map]
  rintro ⟨p, hp, hfst⟩
  rw [List.mem_filter] at hp
  rw [bne_iff_ne] at hp
  exact hp.2 hfst

theorem keys_projRow (cs : List String) (r : Row) :
    (projRow cs r).map Prod.fst = cs := by
  induction cs with
  | nil => rfl
  | cons a cs ih =>
    show a :: (projRow cs r).map Prod.fst = a :: cs
    rw [ih]

theorem getVal_projRow (cs : List String) (r : Row) (c : String) :
    getVal (projRow cs r) c = if c ∈ cs then getVal r c else Val.null := by
  induction cs with
  | nil => simp [projRow, getVal_nil]
  | cons a cs ih =>
    show getVal ((a, getVal r a) :: projRow cs r) c = _
    rw [getVal_cons]
    by_cases ha : a = c
    · subst ha
      simp
    · have hca : ¬c = a := fun h => ha h.symm
      rw [if_neg ha, ih]
      by_cases hc : c ∈ cs
      · simp [hc, List.mem_cons]
      · simp [hc, List.mem_cons, hca]

/-! ## Lemmas about deduplication (`drop_duplicates`, keep='first') -/

theorem mem_dedupKeyed {α : Type} {f : α → Val} {seen : List Val} {l : List α}
    {a : α} (h : a ∈ dedupKeyed f seen l) : f a ∉ seen ∧ a ∈ l := by
  induction l generalizing seen with
  | nil => simp [dedupKeyed] at h
  | cons b l ih =>
    simp only [dedupKeyed] at h
    by_cases hb : f b ∈ seen
    · rw [if_pos hb] at h
      obtain ⟨h1, h2⟩ := ih h
      exact ⟨h1, List.mem_cons_of_mem _ h2⟩
    · rw [if_neg hb] at h
      rcases List.mem_cons.mp h with rfl | h'
      · exact ⟨hb, List.mem_cons_self _ _⟩
      · obtain ⟨h1, h2⟩ := ih h'
        rw [List.mem_cons] at h1
        push_neg at h1
        exact ⟨h1.2, List.mem_cons_of_mem _ h2⟩

theorem countP_dedupKeyed {α : Type} (f : α → Val) (v : Val) (seen : List Val)
    (l : List α) :
    (dedupKeyed f seen l).countP (fun a => f a == v) =
      if v ∈ seen then 0 else if v ∈ l.map f then 1 else 0 := by
  induction l generalizing seen with
  | nil => simp [dedupKeyed]
  | cons b l ih =>
    simp only [dedupKeyed]
    by_cases hb : f b ∈ seen
    · rw [if_pos hb, ih]
      by_cases hv : v ∈ seen
      · rw [if_pos hv, if_pos hv]
      · have hvb : ¬v = f b := fun h => hv (h ▸ hb)
        rw [if_neg hv, if_neg hv]
        simp [List.map_cons, List.mem_cons, hvb]
    · rw [if_neg hb, List.countP_cons, ih]
      by_cases hvb : f b = v
      · subst hvb
        have hmem : f b ∈ f b :: seen := List.mem_cons_self _ _
        rw [if_pos hmem, if_neg hb]
        simp
      · have hne : (f b == v) = false := by simpa using hvb
        have hvb' : ¬v = f b := fun h => hvb h.symm
        rw [hne]
        by_cases hv : v ∈ seen
        · simp [hv, List.mem_cons, hvb']
        · simp [hv, List.mem_cons, hvb']

theorem find?_cons_eq {α : Type} (p : α → Bool) (b : α) (l : List α) :
    (b :: l).find? p = if p b then some b else l.find? p := by
  cases h : p b <;> simp [List.find?, h]

theorem find?_dedupKeyed {α : Type} {f : α → Val} {seen : List Val} {l : List α}
    {a : α} (h : a ∈ dedupKeyed f seen l) :
    l.find? (fun x => f x == f a) = some a := by
  induction l generalizing seen with
  | nil => simp [dedupKeyed] at h
  | cons b l ih =>
    simp only [dedupKeyed] at h
    by_cases hb : f b ∈ seen
    · rw [if_pos hb] at h
      have hna := (mem_dedupKeyed h).1
      have hne : ¬((f b == f a) = true) := by
        simp only [beq_iff_eq]
        intro he
        exact hna (he ▸ hb)
      rw [find?_cons_eq, if_neg hne]
      exact ih h
    · rw [if_neg hb] at h
      rcases List.mem_cons.mp h with rfl | h'
      · have hpos : (f a == f a) = true := by simp
        rw [find?_cons_eq, if_pos hpos]
      · have hna := (mem_dedupKeyed h').1
        have hne : ¬((f b == f a) = true) := by
          simp only [beq_iff_eq]
          intro he
          apply hna
          rw [← he]
          exact List.mem_cons_self _ _
        rw [find?_cons_eq, if_neg hne]
        exact ih h'

theorem nodup_map_dedupKeyed {α : Type} (f : α → Val) (seen : List Val)
    (l : List α) : ((dedupKeyed f seen l).map f).Nodup := by
  induction l generalizing seen with
  | nil => simp [dedupKeyed]
  | cons b l ih =>
    simp only [dedupKeyed]
    by_cases hb : f b ∈ seen
    · rw [if_pos hb]
      exact ih seen
    · rw [if_neg hb, List.map_cons, List.nodup_cons]
      refine ⟨?_, ih _⟩
      intro hmem
      rw [List.mem_map] at hmem
      obtain ⟨x, hx, hfx⟩ := hmem
      have hnx := (mem_dedupKeyed hx).1
      apply hnx
      rw [hfx]
      exact List.mem_cons_self _ _

theorem toFinset_map_dedupKeyed {α : Type} (f : α → Val) (seen : List Val)
    (l : List α) :
    ((dedupKeyed f seen l).map f).toFinset = (l.map f).toFinset \ seen.toFinset := by
  induction l generalizing seen with
  | nil => simp [dedupKeyed]
  | cons b l ih =>
    simp only [dedupKeyed]
    by_cases hb : f b ∈ seen
    · rw [if_pos hb, ih]
      ext x
      simp only [Finset.mem_sdiff, List.mem_toFinset, List.map_cons, List.mem_cons]
      by_cases hx : x = f b
      · subst hx
        simp [hb]
      · simp [hx]
    · rw [if_neg hb, List.map_cons, List.toFinset_cons, ih]
      ext x
      simp only [Finset.mem_insert, Finset.mem_sdiff, List.mem_toFinset,
        List.map_cons, List.mem_cons, List.toFinset_cons]
      by_cases hx : x = f b
      · subst hx
        simp [hb]
      · simp [hx]

theorem length_dedupKeyed {α : Type} (f : α → Val) (l : List α) :
    (dedupKeyed f [] l).length = (l.map f).toFinset.card := by
  have h1 : ((dedupKeyed f [] l).map f).Nodup := nodup_map_dedupKeyed f [] l
  have h3 : ((dedupKeyed f [] l).map f).toFinset.card =
      ((dedupKeyed f [] l).map f).length := List.toFinset_card_of_nodup h1
  calc (dedupKeyed f [] l).length
      = ((dedupKeyed f [] l).map f).length := (List.length_map _ _).symm
    _ = ((dedupKeyed f [] l).map f).toFinset.card := h3.symm
    _ = ((l.map f).toFinset \ (List.toFinset [])).card := by
        rw [toFinset_map_dedupKeyed]
    _ = (l.map f).toFinset.card := by simp

/-! ## Lemmas about the left merge -/

theorem find?_append_of_none {α : Type} {p : α → Bool} {l1 : List α} (l2 : List α)
    (h : l1.find? p = none) : (l1 ++ l2).find? p = l2.find? p := by
  induction l1 with
  | nil => rfl
  | cons a l1 ih =>
    rw [find?_cons_eq] at h
    by_cases hp : p a = true
    · rw [if_pos hp] at h
      exact absurd h (by simp)
    · rw [if_neg hp] at h
      rw [List.cons_append, find?_cons_eq, if_neg hp]
      exact ih h

theorem find?_append_of_some {α : Type} {p : α → Bool} {l1 : List α} {x : α}
    (l2 : List α) (h : l1.find? p = some x) : (l1 ++ l2).find? p = some x := by
  induction l1 with
  | nil => exact absurd h (by simp)
  | cons a l1 ih =>
    rw [find?_cons_eq] at h
    by_cases hp : p a = true
    · rw [if_pos hp] at h
      rw [List.cons_append, find?_cons_eq, if_pos hp]
      exact h
    · rw [if_neg hp] at h
      rw [List.cons_append, find?_cons_eq, if_neg hp]
      exact ih h

theorem length_mergeRowOne_pos (key : String) (rrows : List Row)
    (rcols : List String) (l : Row) :
    1 ≤ (mergeRowOne key rrows rcols l).length := by
  unfold mergeRowOne
  by_cases h : rrows.filter (fun r => getVal r key == getVal l key) = []
  · rw [if_pos h]
    simp
  · rw [if_neg h, List.length_map]
    have := List.length_pos.mpr h
    omega

theorem mergeRowOne_of_no_match {key : String} {rrows : List Row}
    {rcols : List String} {l : Row}
    (hf : rrows.filter (fun r => getVal r key == getVal l key) = []) :
    mergeRowOne key rrows rcols l = [l ++ nullRow (rcols.erase key)] := by
  unfold mergeRowOne
  rw [if_pos hf]

theorem mem_mergeRowOne {key : String} {rrows : List Row} {rcols : List String}
    {l r : Row} (h : r ∈ mergeRowOne key rrows rcols l) :
    ∃ tail, r = l ++ tail ∧
      (tail = nullRow (rcols.erase key) ∨ ∃ rr ∈ rrows, tail = stripKey key rr) := by
  unfold mergeRowOne at h
  by_cases hf : rrows.filter (fun r => getVal r key == getVal l key) = []
  · rw [if_pos hf] at h
    simp only [List.mem_singleton] at h
    exact ⟨_, h, Or.inl rfl⟩
  · rw [if_neg hf] at h
    rw [List.mem_map] at h
    obtain ⟨rr, hrr, hre⟩ := h
    exact ⟨_, hre.symm, Or.inr ⟨rr, (List.mem_filter.mp hrr).1, rfl⟩⟩

theorem getVal_mergeRowOne_key {key : String} {rrows : List Row}
    {rcols : List String} {l r : Row} (h : r ∈ mergeRowOne key rrows rcols l) :
    getVal r key = getVal l key := by
  obtain ⟨tail, rfl, htail⟩ := mem_mergeRowOne h
  rw [getVal_append]
  by_cases hk : key ∈ l.map Prod.fst
  · rw [if_pos hk]
  · rw [if_neg hk, getVal_not_mem hk]
    rcases htail with rfl | ⟨rr, _, rfl⟩
    · rw [getVal_nullRow]
    · exact getVal_not_mem (not_mem_keys_stripKey key rr)

theorem getVal_mergeRowOne_left {key : String} {rrows : List Row}
    {rcols : List String} {l r : Row} {c : String} (hc : c ∈ l.map Prod.fst)
    (h : r ∈ mergeRowOne key rrows rcols l) : getVal r c = getVal l c := by
  obtain ⟨tail, rfl, _⟩ := mem_mergeRowOne h
  rw [getVal_append, if_pos hc]

theorem countP_mergeRowOne (key : String) (v : Val) (rrows : List Row)
    (rcols : List String) (l : Row) :
    (mergeRowOne key rrows rcols l).countP (fun r => getVal r key == v) =
      if getVal l key = v then
        max 1 (rrows.countP (fun r => getVal r key == v))
      else 0 := by
  by_cases hl : getVal l key = v
  · subst hl
    rw [if_pos rfl]
    have hall : ∀ r ∈ mergeRowOne key rrows rcols l,
        ((fun r => getVal r key == getVal l key) r = true) := by
      intro r hr
      simp only [beq_iff_eq]
      exact getVal_mergeRowOne_key hr
    rw [List.countP_eq_length.mpr hall, List.countP_eq_length_filter]
    unfold mergeRowOne
    by_cases hf : rrows.filter (fun r => getVal r key == getVal l key) = []
    · rw [if_pos hf, hf]
      simp
    · rw [if_neg hf, List.length_map]
      have hpos := List.length_pos.mpr hf
      omega
  · rw [if_neg hl]
    apply List.countP_eq_zero.mpr
    intro r hr
    simp only [beq_iff_eq]
    rw [getVal_mergeRowOne_key hr]
    exact hl

theorem countP_mergeRows (key : String) (v : Val) (L R : List Row)
    (rcols : List String) :
    (mergeRows key L R rcols).countP (fun r => getVal r key == v) =
      L.countP (fun r => getVal r key == v) *
        max 1 (R.countP (fun r => getVal r key == v)) := by
  induction L with
  | nil => simp [mergeRows]
  | cons l L ih =>
    unfold mergeRows at ih ⊢
    rw [List.flatMap_cons, List.countP_append, countP_mergeRowOne,
      List.countP_cons, ih]
    by_cases hl : getVal l key = v
    · have hb : (getVal l key == v) = true := by simpa using hl
      rw [if_pos hl, hb]
      simp only [if_pos trivial]
      ring
    · have hb : (getVal l key == v) = false := by simpa using hl
      rw [if_neg hl, hb]
      simp

theorem length_mergeRows_ge (key : String) (L R : List Row) (rcols : List String) :
    L.length ≤ (mergeRows key L R rcols).length := by
  induction L with
  | nil => simp [mergeRows]
  | cons l L ih =>
    unfold mergeRows at ih ⊢
    rw [List.flatMap_cons, List.length_append, List.length_cons]
    have := length_mergeRowOne_pos key R rcols l
    omega

theorem mem_mergeRows {key : String} {L R : List Row} {rcols : List String}
    {r : Row} :
    r ∈ mergeRows key L R rcols ↔ ∃ l ∈ L, r ∈ mergeRowOne key R rcols l := by
  unfold mergeRows
  exact List.mem_flatMap

theorem mem_mergeRows_zero_match {key : String} {L R : List Row}
    {rcols : List String} {r : Row} {v : Val}
    (hR : R.countP (fun x => getVal x key == v) = 0)
    (h : r ∈ mergeRows key L R rcols) (hv : getVal r key = v) :
    ∃ l ∈ L, getVal l key = v ∧ r = l ++ nullRow (rcols.erase key) := by
  obtain ⟨l, hl, hr⟩ := mem_mergeRows.mp h
  have hkey : getVal l key = v := by
    rw [← getVal_mergeRowOne_key hr, hv]
  have hf : R.filter (fun x => getVal x key == getVal l key) = [] := by
    rw [hkey, ← List.length_eq_zero, ← List.countP_eq_length_filter]
    exact hR
  rw [mergeRowOne_of_no_match hf] at hr
  simp only [List.mem_singleton] at hr
  exact ⟨l, hl, hkey, hr⟩

theorem find?_flatMap_congr {α β : Type} {f : α → List β} {P : β → Bool}
    {Q : α → Bool} (L : List α) (hPQ : ∀ l ∈ L, ∀ r ∈ f l, P r = Q l)
    (hne : ∀ l ∈ L, f l ≠ []) :
    (L.flatMap f).find? P = (L.find? Q).bind (fun l0 => (f l0).find? P) := by
  induction L with
  | nil => rfl
  | cons l L ih =>
    have hPQl := hPQ l (List.mem_cons_self _ _)
    have hPQL : ∀ x ∈ L, ∀ r ∈ f x, P r = Q x :=
      fun x hx => hPQ x (List.mem_cons_of_mem _ hx)
    have hneL : ∀ x ∈ L, f x ≠ [] := fun x hx => hne x (List.mem_cons_of_mem _ hx)
    rw [List.flatMap_cons]
    by_cases hq : Q l = true
    · have hsome : ∃ x, (f l).find? P = some x := by
        cases hfl : f l with
        | nil => exact absurd hfl (hne l (List.mem_cons_self _ _))
        | cons r rest =>
          have hp : P r = true := by
            rw [hPQl r (hfl ▸ List.mem_cons_self _ _), hq]
          rw [find?_cons_eq, if_pos hp]
          exact ⟨r, rfl⟩
      obtain ⟨x, hx⟩ := hsome
      rw [find?_append_of_some _ hx, find?_cons_eq, if_pos hq]
      exact hx.symm
    · have hnone : (f l).find? P = none := by
        apply List.find?_eq_none.mpr
        intro r hr
        rw [hPQl r hr]
        exact hq
      rw [find?_append_of_none _ hnone, find?_cons_eq, if_neg hq]
      exact ih hPQL hneL

/-! ## Lemmas about the in-place timestamp parse (`parseCol`) -/

theorem mapM_option_forall₂ {α β : Type} {g : α → Option β} :
    ∀ {l : List α} {l' : List β}, l.mapM g = some l' →
      List.Forall₂ (fun a b => g a = some b) l l' := by
  intro l
  induction l with
  | nil =>
    intro l' h
    simp only [List.mapM_nil, pure, Option.some.injEq] at h
    subst h
    exact List.Forall₂.nil
  | cons a l ih =>
    intro l' h
    rw [List.mapM_cons] at h
    cases hga : g a with
    | none =>
      rw [hga] at h
      simp at h
    | some b =>
      rw [hga] at h
      cases hml : l.mapM g with
      | none =>
        rw [hml] at h
        simp at h
      | some bs =>
        rw [hml] at h
        simp only [Option.bind_eq_bind, Option.some_bind, pure,
          Option.some.injEq] at h
        subst h
        exact List.Forall₂.cons hga (ih hml)

theorem countP_eq_of_forall₂ {α β : Type} {R : α → β → Prop} {l : List α}
    {l' : List β} (h : List.Forall₂ R l l') (p : α → Bool) (q : β → Bool)
    (hpq : ∀ a b, R a b → p a = q b) : l.countP p = l'.countP q := by
  induction h with
  | nil => rfl
  | cons hR hl ih => rw [List.countP_cons, List.countP_cons, ih, hpq _ _ hR]

theorem parseCol_spec {df df' : DF} {c : String} (h : parseCol df c = some df') :
    df'.cols = df.cols ∧
      List.Forall₂
        (fun r r' => ∃ v, toDatetimeVal (getVal r c) = some v ∧ r' = setCol r c v)
        df.rows df'.rows := by
  unfold parseCol at h
  by_cases hc : c ∈ df.cols
  · rw [if_pos hc] at h
    cases hm : df.rows.mapM
        (fun r => (toDatetimeVal (getVal r c)).map (fun v => setCol r c v)) with
    | none =>
      rw [hm] at h
      simp at h
    | some rs =>
      rw [hm] at h
      simp only [Option.map_some', Option.some.injEq] at h
      subst h
      refine ⟨rfl, ?_⟩
      apply (mapM_option_forall₂ hm).imp
      intro a b hab
      rw [Option.map_eq_some'] at hab
      obtain ⟨v, hv, hb⟩ := hab
      exact ⟨v, hv, hb.symm⟩
  · rw [if_neg hc] at h
    simp at h

theorem countP_parseCol_ne {df df' : DF} {c c' : String} (hne : c' ≠ c)
    (h : parseCol df c = some df') (p : Val → Bool) :
    df'.rows.countP (fun r => p (getVal r c')) =
      df.rows.countP (fun r => p (getVal r c')) := by
  obtain ⟨-, hf⟩ := parseCol_spec h
  refine (countP_eq_of_forall₂ hf _ _ ?_).symm
  rintro a b ⟨v, -, rfl⟩
  rw [getVal_setCol_ne _ _ hne]

theorem length_parseCol {df df' : DF} {c : String} (h : parseCol df c = some df') :
    df'.rows.length = df.rows.length := by
  obtain ⟨-, hf⟩ := parseCol_spec h
  exact hf.length_eq.symm

/-! ## C1: dim_customers key uniqueness and row count -/

/-- C1: for every input customers dataset accepted by the customers
transformer, the dim_customers output has no two rows sharing a
customer_id, and its row count equals the number of distinct customer_id
values in the input. -/
theorem dim_customers_unique_and_distinct_count (df out : DF)
    (h : transform_dim_customers df = some out) :
    (out.rows.map (fun r => getVal r "customer_id")).Nodup ∧
      out.rows.length =
        (df.rows.map (fun r => getVal r "customer_id")).toFinset.card := by
  unfold transform_dim_customers at h
  by_cases hc : "customer_id" ∈ df.cols ∧ "customer_unique_id" ∈ df.cols
  · rw [if_pos hc] at h
    simp only [Option.some.injEq] at h
    subst h
    have hcomp :
        (fun r => getVal r "customer_id") ∘
          (fun r => setCol r "customer_unique_id"
            (valToStr (getVal r "customer_unique_id"))) =
        fun r => getVal r "customer_id" := by
      funext r
      exact getVal_setCol_ne r _ (by decide)
    constructor
    · show (((dedupBy "customer_id" df.rows).map _).map
        (fun r => getVal r "customer_id")).Nodup
      rw [List.map_map, hcomp]
      unfold dedupBy
      exact nodup_map_dedupKeyed _ _ _
    · show ((dedupBy "customer_id" df.rows).map _).length = _
      rw [List.length_map]
      unfold dedupBy
      exact length_dedupKeyed _ _
  · rw [if_neg hc] at h
    simp at h

/-- Concrete customers input for the C1 witness: three rows, one
duplicated customer_id, one null customer_unique_id. -/
def c1df : DF :=
  ⟨["customer_id", "customer_unique_id"],
   [[("customer_id", Val.str "c1"), ("customer_unique_id", Val.str "u1")],
    [("customer_id", Val.str "c1"), ("customer_unique_id", Val.str "u2")],
    [("customer_id", Val.str "c2"), ("customer_unique_id", Val.null)]]⟩

/-- The dim_customers output on `c1df`: first duplicate kept, null
customer_unique_id rendered as the text "nan" by `astype(str)`. -/
def c1out : DF :=
  ⟨["customer_id", "customer_unique_id"],
   [[("customer_id", Val.str "c1"), ("customer_unique_id", Val.str "u1")],
    [("customer_id", Val.str "c2"), ("customer_unique_id", Val.str "nan")]]⟩

/-- Witness for C1 on the concrete input `c1df`. -/
theorem dim_customers_unique_and_distinct_count_witness :
    transform_dim_customers c1df = some c1out ∧
      ((c1out.rows.map (fun r => getVal r "customer_id")).Nodup ∧
        c1out.rows.length =
          (c1df.rows.map (fun r => getVal r "customer_id")).toFinset.card) :=
  ⟨by decide, dim_customers_unique_and_distinct_count c1df c1out (by decide)⟩

/-- Destructure a successful monadic `Option` step (the do-notation of the
transformers). -/
theorem option_bind_eq_some {α β : Type} {o : Option α} {f : α → Option β}
    {b : β} (h : (o >>= f) = some b) : ∃ a, o = some a ∧ f a = some b := by
  cases o with
  | none => exact Option.noConfusion h
  | some a => exact ⟨a, rfl, h⟩

/-! ## C3: dim_date distinct dates and field consistency -/

theorem getVal_mkDateRow_date (v : Val) : getVal (mkDateRow v) "date" = v := by
  show getVal (("date", v) :: _) "date" = v
  rw [getVal_cons, if_pos rfl]

theorem getVal_mkDateRow_day (v : Val) : getVal (mkDateRow v) "day" = dayVal v := by
  show getVal (("date", v) :: ("day", dayVal v) :: _) "day" = _
  rw [getVal_cons, if_neg (by decide), getVal_cons, if_pos rfl]

theorem getVal_mkDateRow_month (v : Val) :
    getVal (mkDateRow v) "month" = monthVal v := by
  show getVal (("date", v) :: ("day", dayVal v) :: ("month", monthVal v) :: _)
    "month" = _
  rw [getVal_cons, if_neg (by decide), getVal_cons, if_neg (by decide),
    getVal_cons, if_pos rfl]

theorem getVal_mkDateRow_year (v : Val) :
    getVal (mkDateRow v) "year" = yearVal v := by
  show getVal (("date", v) :: ("day", dayVal v) :: ("month", monthVal v) ::
    ("year", yearVal v) :: _) "year" = _
  rw [getVal_cons, if_neg (by decide), getVal_cons, if_neg (by decide),
    getVal_cons, if_neg (by decide), getVal_cons, if_pos rfl]

/-- C3: for every orders dataset whose purchase timestamps parse, dim_date
has exactly one row per distinct calendar date (time-of-day ignored)
occurring among the parsed purchase timestamps, and each row's day, month
and year fields equal the components of that row's date. -/
theorem dim_date_distinct_dates_and_fields (orders orders1 out : DF)
    (h : transform_dim_date orders = some (orders1, out)) :
    (∀ y m d : Nat,
      out.rows.countP (fun r => getVal r "date" == Val.dt ⟨y, m, d, 0, 0, 0⟩) =
        if Val.dt ⟨y, m, d, 0, 0, 0⟩ ∈
            orders1.rows.map (fun r => dateVal (getVal r "order_purchase_timestamp"))
          then 1 else 0) ∧
    (∀ r ∈ out.rows, ∀ y m d : Nat,
      getVal r "date" = Val.dt ⟨y, m, d, 0, 0, 0⟩ →
        getVal r "day" = Val.int d ∧ getVal r "month" = Val.int m ∧
          getVal r "year" = Val.int y) := by
  unfold transform_dim_date at h
  obtain ⟨o1, ho1, h2⟩ := option_bind_eq_some h
  have h3 := Option.some.inj h2
  injection h3 with h4 h5
  subst h4
  subst h5
  constructor
  · intro y m d
    rw [List.countP_map]
    have hfun :
        ((fun r => getVal r "date" == Val.dt ⟨y, m, d, 0, 0, 0⟩) ∘ mkDateRow) =
          (fun u => id u == Val.dt ⟨y, m, d, 0, 0, 0⟩) := by
      funext u
      show (getVal (mkDateRow u) "date" == _) = _
      rw [getVal_mkDateRow_date]
      rfl
    rw [hfun]
    unfold dedupVals
    rw [countP_dedupKeyed]
    simp [List.map_id]
  · intro r hr y m d hd
    rw [List.mem_map] at hr
    obtain ⟨u, hu, rfl⟩ := hr
    rw [getVal_mkDateRow_date] at hd
    subst hd
    rw [getVal_mkDateRow_day, getVal_mkDateRow_month, getVal_mkDateRow_year]
    exact ⟨rfl, rfl, rfl⟩

/-- Concrete orders input for the C3 witness: two timestamps on the same
calendar day, different times of day. -/
def c3orders : DF :=
  ⟨["order_id", "order_purchase_timestamp"],
   [[("order_id", Val.str "o1"),
     ("order_purchase_timestamp", Val.str "2017-01-02 03:04:05")],
    [("order_id", Val.str "o2"),
     ("order_purchase_timestamp", Val.str "2017-01-02 10:00:00")]]⟩

/-- `c3orders` after the in-place timestamp parse. -/
def c3parsed : DF :=
  ⟨["order_id", "order_purchase_timestamp"],
   [[("order_id", Val.str "o1"),
     ("order_purchase_timestamp", Val.dt ⟨2017, 1, 2, 3, 4, 5⟩)],
    [("order_id", Val.str "o2"),
     ("order_purchase_timestamp", Val.dt ⟨2017, 1, 2, 10, 0, 0⟩)]]⟩

/-- The dim_date output on `c3orders`: a single row for 2017-01-02
(a Monday, weekday 0). -/
def c3out : DF :=
  ⟨["date", "day", "month", "year", "weekday"],
   [[("date", Val.dt ⟨2017, 1, 2, 0, 0, 0⟩), ("day", Val.int 2),
     ("month", Val.int 1), ("year", Val.int 2017), ("weekday", Val.int 0)]]⟩

/-- Witness for C3 on the concrete input `c3orders`. -/
theorem dim_date_distinct_dates_and_fields_witness :
    transform_dim_date c3orders = some (c3parsed, c3out) ∧
      ((∀ y m d : Nat,
        c3out.rows.countP (fun r => getVal r "date" == Val.dt ⟨y, m, d, 0, 0, 0⟩) =
          if Val.dt ⟨y, m, d, 0, 0, 0⟩ ∈
              c3parsed.rows.map
                (fun r => dateVal (getVal r "order_purchase_timestamp"))
            then 1 else 0) ∧
      (∀ r ∈ c3out.rows, ∀ y m d : Nat,
        getVal r "date" = Val.dt ⟨y, m, d, 0, 0, 0⟩ →
          getVal r "day" = Val.int d ∧ getVal r "month" = Val.int m ∧
            getVal r "year" = Val.int y)) :=
  ⟨by decide, dim_date_distinct_dates_and_fields c3orders c3parsed c3out (by decide)⟩

/-! ## C10 and C2: dim_products -/

theorem merge_spec {ldf rdf : DF} {key : String} {m : DF}
    (h : merge ldf rdf key = some m) :
    m.cols = ldf.cols ++ rdf.cols.erase key ∧
      m.rows = mergeRows key ldf.rows rdf.rows rdf.cols ∧
      key ∈ ldf.cols ∧ key ∈ rdf.cols ∧
      ∀ c ∈ ldf.cols, c ∈ rdf.cols → c = key := by
  unfold merge at h
  by_cases hc : key ∈ ldf.cols ∧ key ∈ rdf.cols ∧
      ∀ c ∈ ldf.cols, c ∈ rdf.cols → c = key
  · rw [if_pos hc] at h
    have he := Option.some.inj h
    subst he
    exact ⟨rfl, rfl, hc.1, hc.2.1, hc.2.2⟩
  · rw [if_neg hc] at h
    exact Option.noConfusion h

theorem transform_dim_products_spec {p t out : DF}
    (h : transform_dim_products p t = some out) :
    ∃ m : DF, merge p t "product_category_name" = some m ∧
      "product_id" ∈ m.cols ∧
      out = ⟨m.cols, dedupBy "product_id" m.rows⟩ := by
  unfold transform_dim_products at h
  obtain ⟨m, hm, h2⟩ := option_bind_eq_some h
  by_cases hpid : "product_id" ∈ m.cols
  · rw [if_pos hpid] at h2
    exact ⟨m, hm, hpid, (Option.some.inj h2).symm⟩
  · rw [if_neg hpid] at h2
    exact Option.noConfusion h2

/-- C10: the products transformer deduplicates on product_id after the left
join, so for inputs where the translation table repeats a category (join
fan-out) the output still has at most one row per product_id, and each kept
row is the first row with its product_id in join output order. -/
theorem dim_products_dedup_after_fanout (p t out : DF)
    (hfan : ∃ cat : Val,
      2 ≤ t.rows.countP (fun tr => getVal tr "product_category_name" == cat))
    (h : transform_dim_products p t = some out) :
    (∀ v : Val, out.rows.countP (fun r => getVal r "product_id" == v) ≤ 1) ∧
      (∀ r ∈ out.rows,
        (mergeRows "product_category_name" p.rows t.rows t.cols).find?
          (fun x => getVal x "product_id" == getVal r "product_id") = some r) := by
  obtain ⟨m, hm, hpid, rfl⟩ := transform_dim_products_spec h
  obtain ⟨hcols, hrows, hk1, hk2, hdisj⟩ := merge_spec hm
  dsimp only
  rw [hrows]
  constructor
  · intro v
    unfold dedupBy
    rw [countP_dedupKeyed]
    simp only [List.not_mem_nil, if_false]
    split <;> omega
  · intro r hr
    exact find?_dedupKeyed hr

/-- Concrete products input for the C10 witness. -/
def c10p : DF :=
  ⟨["product_id", "product_category_name"],
   [[("product_id", Val.str "p1"), ("product_category_name", Val.str "A")],
    [("product_id", Val.str "p2"), ("product_category_name", Val.str "B")]]⟩

/-- Concrete translation input for the C10 witness: category A is
translated twice (fan-out); category B has no translation. -/
def c10t : DF :=
  ⟨["product_category_name", "product_category_name_english"],
   [[("product_category_name", Val.str "A"),
     ("product_category_name_english", Val.str "X1")],
    [("product_category_name", Val.str "A"),
     ("product_category_name_english", Val.str "X2")]]⟩

/-- The dim_products output on `c10p`/`c10t`: the first joined row per
product survives; p2 keeps a null translation. -/
def c10out : DF :=
  ⟨["product_id", "product_category_name", "product_category_name_english"],
   [[("product_id", Val.str "p1"), ("product_category_name", Val.str "A"),
     ("product_category_name_english", Val.str "X1")],
    [("product_id", Val.str "p2"), ("product_category_name", Val.str "B"),
     ("product_category_name_english", Val.null)]]⟩

/-- Witness for C10 on the concrete inputs `c10p`, `c10t`. -/
theorem dim_products_dedup_after_fanout_witness :
    (2 ≤ c10t.rows.countP
        (fun tr => getVal tr "product_category_name" == Val.str "A")) ∧
      transform_dim_products c10p c10t = some c10out ∧
      ((∀ v : Val, c10out.rows.countP (fun r => getVal r "product_id" == v) ≤ 1) ∧
        (∀ r ∈ c10out.rows,
          (mergeRows "product_category_name" c10p.rows c10t.rows c10t.cols).find?
            (fun x => getVal x "product_id" == getVal r "product_id") = some r)) :=
  ⟨by decide, by decide,
    dim_products_dedup_after_fanout c10p c10t c10out
      ⟨Val.str "A", by decide⟩ (by decide)⟩

/-- C2: for every accepted products/translation input pair (products rows
conforming to the schema, with the category determined by the product_id),
dim_products has exactly one row per distinct product_id of the input
products, and every product whose category has no matching translation row
still appears, with null in every translation column. -/
theorem dim_products_per_product_and_null_translation (p t out : DF)
    (hpid : "product_id" ∈ p.cols)
    (hwf : ∀ r ∈ p.rows, r.map Prod.fst = p.cols)
    (hcat : ∀ r ∈ p.rows, ∀ r' ∈ p.rows,
      getVal r "product_id" = getVal r' "product_id" →
      getVal r "product_category_name" = getVal r' "product_category_name")
    (h : transform_dim_products p t = some out) :
    (∀ v : Val,
      out.rows.countP (fun r => getVal r "product_id" == v) =
        if v ∈ p.rows.map (fun r => getVal r "product_id") then 1 else 0) ∧
      (∀ pr ∈ p.rows,
        (∀ tr ∈ t.rows,
          getVal tr "product_category_name" ≠ getVal pr "product_category_name") →
        ∃ r ∈ out.rows, getVal r "product_id" = getVal pr "product_id" ∧
          ∀ c ∈ t.cols, c ≠ "product_category_name" → getVal r c = Val.null) := by
  obtain ⟨m, hm, hpidm, rfl⟩ := transform_dim_products_spec h
  obtain ⟨hcols, hrows, hk1, hk2, hdisj⟩ := merge_spec hm
  dsimp only
  rw [hrows]
  have hkeys : ∀ l ∈ p.rows, "product_id" ∈ l.map Prod.fst := by
    intro l hl
    rw [hwf l hl]
    exact hpid
  have hmem : ∀ v : Val,
      v ∈ (mergeRows "product_category_name" p.rows t.rows t.cols).map
          (fun r => getVal r "product_id") ↔
        v ∈ p.rows.map (fun r => getVal r "product_id") := by
    intro v
    constructor
    · intro hv
      rw [List.mem_map] at hv
      obtain ⟨r, hr, rfl⟩ := hv
      obtain ⟨l, hl, hro⟩ := mem_mergeRows.mp hr
      rw [List.mem_map]
      exact ⟨l, hl, (getVal_mergeRowOne_left (hkeys l hl) hro).symm⟩
    · intro hv
      rw [List.mem_map] at hv
      obtain ⟨l, hl, rfl⟩ := hv
      have hne : mergeRowOne "product_category_name" t.rows t.cols l ≠ [] := by
        intro hnil
        have hlen := length_mergeRowOne_pos "product_category_name" t.rows t.cols l
        rw [hnil] at hlen
        simp at hlen
      obtain ⟨r, hr⟩ := List.exists_mem_of_ne_nil _ hne
      rw [List.mem_map]
      exact ⟨r, mem_mergeRows.mpr ⟨l, hl, hr⟩, getVal_mergeRowOne_left (hkeys l hl) hr⟩
  have hcount : ∀ v : Val,
      (dedupBy "product_id"
          (mergeRows "product_category_name" p.rows t.rows t.cols)).countP
        (fun r => getVal r "product_id" == v) =
        if v ∈ p.rows.map (fun r => getVal r "product_id") then 1 else 0 := by
    intro v
    unfold dedupBy
    rw [countP_dedupKeyed]
    simp only [List.not_mem_nil, if_false]
    rw [if_congr (hmem v) rfl rfl]
  refine ⟨hcount, ?_⟩
  intro pr hpr hnomatch
  have h1 : (dedupBy "product_id"
      (mergeRows "product_category_name" p.rows t.rows t.cols)).countP
        (fun r => getVal r "product_id" == getVal pr "product_id") = 1 := by
    rw [hcount _, if_pos (List.mem_map.mpr ⟨pr, hpr, rfl⟩)]
  have hpos : 0 < (dedupBy "product_id"
      (mergeRows "product_category_name" p.rows t.rows t.cols)).countP
        (fun r => getVal r "product_id" == getVal pr "product_id") := by
    rw [h1]
    omega
  obtain ⟨r, hrout, hrv⟩ := List.countP_pos_iff.mp hpos
  rw [beq_iff_eq] at hrv
  refine ⟨r, hrout, hrv, ?_⟩
  have hfind := find?_dedupKeyed hrout
  rw [hrv] at hfind
  have hPQ : ∀ l ∈ p.rows,
      ∀ x ∈ mergeRowOne "product_category_name" t.rows t.cols l,
      ((fun x => getVal x "product_id" == getVal pr "product_id") x) =
        ((fun l => getVal l "product_id" == getVal pr "product_id") l) := by
    intro l hl x hx
    dsimp only
    rw [getVal_mergeRowOne_left (hkeys l hl) hx]
  have hne : ∀ l ∈ p.rows,
      mergeRowOne "product_category_name" t.rows t.cols l ≠ [] := by
    intro l hl hnil
    have hlen := length_mergeRowOne_pos "product_category_name" t.rows t.cols l
    rw [hnil] at hlen
    simp at hlen
  have hbind := find?_flatMap_congr p.rows hPQ hne
  rw [show mergeRows "product_category_name" p.rows t.rows t.cols =
    p.rows.flatMap (mergeRowOne "product_category_name" t.rows t.cols) from rfl,
    hbind, Option.bind_eq_some] at hfind
  obtain ⟨l0, hl0find, hl0row⟩ := hfind
  have hl0mem : l0 ∈ p.rows := List.mem_of_find?_eq_some hl0find
  have hl0pid : getVal l0 "product_id" = getVal pr "product_id" := by
    have hq := List.find?_some hl0find
    rwa [beq_iff_eq] at hq
  have hl0cat : getVal l0 "product_category_name" =
      getVal pr "product_category_name" := hcat l0 hl0mem pr hpr hl0pid
  have hfilter : t.rows.filter
      (fun x => getVal x "product_category_name" ==
        getVal l0 "product_category_name") = [] := by
    rw [List.filter_eq_nil_iff]
    intro tr htr
    simp only [beq_iff_eq]
    rw [hl0cat]
    exact hnomatch tr htr
  rw [mergeRowOne_of_no_match hfilter, find?_cons_eq] at hl0row
  have hpnull : (getVal (l0 ++ nullRow (t.cols.erase "product_category_name"))
      "product_id" == getVal pr "product_id") = true := by
    rw [beq_iff_eq, getVal_append, if_pos (hkeys l0 hl0mem), hl0pid]
  rw [if_pos hpnull] at hl0row
  have hreq := Option.some.inj hl0row
  intro c hc hcne
  rw [← hreq, getVal_append]
  have hcnotp : c ∉ l0.map Prod.fst := by
    rw [hwf l0 hl0mem]
    intro hcp
    exact hcne (hdisj c hcp hc)
  rw [if_neg hcnotp, getVal_nullRow]

/-- Witness for C2 on the concrete inputs `c10p`, `c10t` (product p2's
category B has no translation row). -/
theorem dim_products_per_product_and_null_translation_witness :
    ("product_id" ∈ c10p.cols) ∧
      (∀ r ∈ c10p.rows, r.map Prod.fst = c10p.cols) ∧
      (∀ r ∈ c10p.rows, ∀ r' ∈ c10p.rows,
        getVal r "product_id" = getVal r' "product_id" →
        getVal r "product_category_name" = getVal r' "product_category_name") ∧
      transform_dim_products c10p c10t = some c10out ∧
      ((∀ v : Val,
        c10out.rows.countP (fun r => getVal r "product_id" == v) =
          if v ∈ c10p.rows.map (fun r => getVal r "product_id") then 1 else 0) ∧
      (∀ pr ∈ c10p.rows,
        (∀ tr ∈ c10t.rows,
          getVal tr "product_category_name" ≠ getVal pr "product_category_name") →
        ∃ r ∈ c10out.rows, getVal r "product_id" = getVal pr "product_id" ∧
          ∀ c ∈ c10t.cols, c ≠ "product_category_name" → getVal r c = Val.null)) :=
  ⟨by decide, by decide, by decide, by decide,
    dim_products_per_product_and_null_translation c10p c10t c10out
      (by decide) (by decide) (by decide) (by decide)⟩

/-! ## The fact transformer: destructuring and C5, C6 -/

theorem project_spec {df : DF} {cs : List String} {out : DF}
    (h : project df cs = some out) :
    out.cols = cs ∧ out.rows = df.rows.map (projRow cs) ∧ ∀ c ∈ cs, c ∈ df.cols := by
  unfold project at h
  by_cases hc : ∀ c ∈ cs, c ∈ df.cols
  · rw [if_pos hc] at h
    have he := Option.some.inj h
    subst he
    exact ⟨rfl, rfl, hc⟩
  · rw [if_neg hc] at h
    exact Option.noConfusion h

theorem lookupTable_setTable_ne {dfs : Tables} {name name' : String} {df : DF}
    (h : name' ≠ name) :
    lookupTable (setTable dfs name df) name' = lookupTable dfs name' := by
  induction dfs with
  | nil => rfl
  | cons p dfs ih =>
    show (((if p.1 = name then (name, df) else p) :: setTable dfs name df).find?
      (fun q => q.1 == name')).map (fun q => q.2) = _
    unfold lookupTable
    rw [find?_cons_eq, find?_cons_eq]
    by_cases hp : p.1 = name
    · rw [if_pos hp]
      have h1 : ((name, df).1 == name') = false := by
        simp only [beq_eq_false_iff_ne]
        exact fun he => h he.symm
      have h2 : (p.1 == name') = false := by
        simp only [beq_eq_false_iff_ne]
        rw [hp]
        exact fun he => h he.symm
      rw [h1, h2, if_neg Bool.false_ne_true, if_neg Bool.false_ne_true]
      exact ih
    · rw [if_neg hp]
      by_cases hq : (p.1 == name') = true
      · rw [hq]
        simp
      · rw [Bool.not_eq_true] at hq
        rw [hq, if_neg Bool.false_ne_true, if_neg Bool.false_ne_true]
        exact ih

theorem transform_fact_orders_spec {dfs dfs' : Tables} {fact : DF}
    (h : transform_fact_orders dfs = some (dfs', fact)) :
    ∃ orders orders1 items payments reviews m1 m2 m3 projected,
      lookupTable dfs "olist_orders_dataset" = some orders ∧
      parseCol orders "order_purchase_timestamp" = some orders1 ∧
      dfs' = setTable dfs "olist_orders_dataset" orders1 ∧
      lookupTable dfs' "olist_order_items_dataset" = some items ∧
      lookupTable dfs' "olist_order_payments_dataset" = some payments ∧
      lookupTable dfs' "olist_order_reviews_dataset" = some reviews ∧
      merge orders1 items "order_id" = some m1 ∧
      merge m1 payments "order_id" = some m2 ∧
      merge m2 reviews "order_id" = some m3 ∧
      project m3 factCols = some projected ∧
      fact = coerceColumn (coerceColumn projected "payment_value") "review_score" := by
  unfold transform_fact_orders at h
  obtain ⟨orders, h1, h⟩ := option_bind_eq_some h
  obtain ⟨orders1, h2, h⟩ := option_bind_eq_some h
  obtain ⟨items, h3, h⟩ := option_bind_eq_some h
  obtain ⟨payments, h4, h⟩ := option_bind_eq_some h
  obtain ⟨reviews, h5, h⟩ := option_bind_eq_some h
  obtain ⟨m1, h6, h⟩ := option_bind_eq_some h
  obtain ⟨m2, h7, h⟩ := option_bind_eq_some h
  obtain ⟨m3, h8, h⟩ := option_bind_eq_some h
  obtain ⟨projected, h9, h⟩ := option_bind_eq_some h
  have h10 := Option.some.inj h
  injection h10 with ha hb
  exact ⟨orders, orders1, items, payments, reviews, m1, m2, m3, projected,
    h1, h2, ha.symm, ha ▸ h3, ha ▸ h4, ha ▸ h5, h6, h7, h8, h9, hb.symm⟩

/-- C5: whenever the fact transformer succeeds, fact_orders has exactly the
15 projected columns, in order, and every row carries exactly those keys. -/
theorem fact_orders_exact_columns (dfs dfs' : Tables) (fact : DF)
    (h : transform_fact_orders dfs = some (dfs', fact)) :
    fact.cols = factCols ∧ ∀ r ∈ fact.rows, r.map Prod.fst = factCols := by
  obtain ⟨orders, orders1, items, payments, reviews, m1, m2, m3, projected,
    -, -, -, -, -, -, -, -, -, h9, hb⟩ := transform_fact_orders_spec h
  subst hb
  obtain ⟨hpcols, hprows, -⟩ := project_spec h9
  constructor
  · exact hpcols
  · intro r hr
    have hr' : r ∈ ((projected.rows.map
        (fun r => setCol r "payment_value" (coerceNum (getVal r "payment_value")))).map
        (fun r => setCol r "review_score" (coerceNum (getVal r "review_score")))) := hr
    rw [List.mem_map] at hr'
    obtain ⟨r1, hr1, rfl⟩ := hr'
    rw [List.mem_map] at hr1
    obtain ⟨r0, hr0, rfl⟩ := hr1
    rw [hprows, List.mem_map] at hr0
    obtain ⟨mr, hmr, rfl⟩ := hr0
    rw [keys_setCol, keys_setCol, keys_projRow]

/-- Numeric-or-null shape of a cell value. -/
def numOrNull : Val → Bool
  | Val.null => true
  | Val.int _ => true
  | _ => false

theorem numOrNull_coerceNum (v : Val) : numOrNull (coerceNum v) = true := by
  unfold coerceNum
  cases numParse? v <;> rfl

theorem getVal_setCol_self (r : Row) (c : String) (v : Val) :
    getVal (setCol r c v) c = v ∨ getVal (setCol r c v) c = Val.null := by
  induction r with
  | nil => exact Or.inr rfl
  | cons p r ih =>
    obtain ⟨k, u⟩ := p
    show getVal ((if k = c then (c, v) else (k, u)) :: setCol r c v) c = v ∨
      getVal ((if k = c then (c, v) else (k, u)) :: setCol r c v) c = Val.null
    by_cases hk : k = c
    · rw [if_pos hk, getVal_cons, if_pos rfl]
      exact Or.inl rfl
    · rw [if_neg hk, getVal_cons, if_neg hk]
      exact ih

/-- C6: whenever the fact transformer reaches the coercion step, every
payment_value and review_score cell of fact_orders is numeric or null, and
the (total, never-raising) coercion maps every unparseable value to null. -/
theorem fact_orders_numeric_or_null (dfs dfs' : Tables) (fact : DF)
    (h : transform_fact_orders dfs = some (dfs', fact)) :
    (∀ r ∈ fact.rows,
      numOrNull (getVal r "payment_value") = true ∧
        numOrNull (getVal r "review_score") = true) ∧
      (∀ v : Val, numParse? v = none → coerceNum v = Val.null) ∧
      (∀ v : Val, numOrNull (coerceNum v) = true) := by
  refine ⟨?_, ?_, numOrNull_coerceNum⟩
  · obtain ⟨orders, orders1, items, payments, reviews, m1, m2, m3, projected,
      -, -, -, -, -, -, -, -, -, -, hb⟩ := transform_fact_orders_spec h
    subst hb
    intro r hr
    have hr' : r ∈ ((projected.rows.map
        (fun r => setCol r "payment_value" (coerceNum (getVal r "payment_value")))).map
        (fun r => setCol r "review_score" (coerceNum (getVal r "review_score")))) := hr
    rw [List.mem_map] at hr'
    obtain ⟨r1, hr1, rfl⟩ := hr'
    constructor
    · rw [getVal_setCol_ne _ _ (by decide)]
      rw [List.mem_map] at hr1
      obtain ⟨r0, hr0, rfl⟩ := hr1
      rcases getVal_setCol_self r0 "payment_value"
          (coerceNum (getVal r0 "payment_value")) with he | he
      · rw [he]
        exact numOrNull_coerceNum _
      · rw [he]
        rfl
    · rcases getVal_setCol_self r1 "review_score"
          (coerceNum (getVal r1 "review_score")) with he | he
      · rw [he]
        exact numOrNull_coerceNum _
      · rw [he]
        rfl
  · intro v hv
    unfold coerceNum
    rw [hv]

/-- Concrete orders table for the fact-transformer witnesses: o1 has one
item, one payment and one review; o2 has none of the three. -/
def wOrders : DF :=
  ⟨["order_id", "customer_id", "order_purchase_timestamp", "order_approved_at",
    "order_delivered_carrier_date", "order_delivered_customer_date",
    "order_estimated_delivery_date"],
   [[("order_id", Val.str "o1"), ("customer_id", Val.str "c1"),
     ("order_purchase_timestamp", Val.str "2017-01-02 03:04:05"),
     ("order_approved_at", Val.str "2017-01-02 04:00:00"),
     ("order_delivered_carrier_date", Val.null),
     ("order_delivered_customer_date", Val.null),
     ("order_estimated_delivery_date", Val.str "2017-01-20")],
    [("order_id", Val.str "o2"), ("customer_id", Val.str "c2"),
     ("order_purchase_timestamp", Val.str "2017-03-04"),
     ("order_approved_at", Val.null),
     ("order_delivered_carrier_date", Val.null),
     ("order_delivered_customer_date", Val.null),
     ("order_estimated_delivery_date", Val.null)]]⟩

/-- Concrete order items table (one item, for o1). -/
def wItems : DF :=
  ⟨["order_id", "order_item_id", "product_id", "seller_id",
    "shipping_limit_date", "price", "freight_value"],
   [[("order_id", Val.str "o1"), ("order_item_id", Val.int 1),
     ("product_id", Val.str "p1"), ("seller_id", Val.str "s1"),
     ("shipping_limit_date", Val.str "2017-01-05"), ("price", Val.int 100),
     ("freight_value", Val.int 10)]]⟩

/-- Concrete payments table (one payment for o1; its value is the string
"110", exercising the numeric coercion). -/
def wPayments : DF :=
  ⟨["order_id", "payment_sequential", "payment_type", "payment_installments",
    "payment_value"],
   [[("order_id", Val.str "o1"), ("payment_sequential", Val.int 1),
     ("payment_type", Val.str "credit_card"), ("payment_installments", Val.int 2),
     ("payment_value", Val.str "110")]]⟩

/-- Concrete reviews table (one review for o1; its score "abc" is not
numeric, so the coercion nulls it). -/
def wReviews : DF :=
  ⟨["review_id", "order_id", "review_score"],
   [[("review_id", Val.str "r1"), ("order_id", Val.str "o1"),
     ("review_score", Val.str "abc")]]⟩

/-- Concrete raw-table dict for the fact-transformer witnesses. -/
def wTables : Tables :=
  [("olist_orders_dataset", wOrders), ("olist_order_items_dataset", wItems),
   ("olist_order_payments_dataset", wPayments),
   ("olist_order_reviews_dataset", wReviews)]

/-- `wOrders` after the in-place timestamp parse performed by the fact
transformer. -/
def wOrdersParsed : DF :=
  ⟨["order_id", "customer_id", "order_purchase_timestamp", "order_approved_at",
    "order_delivered_carrier_date", "order_delivered_customer_date",
    "order_estimated_delivery_date"],
   [[("order_id", Val.str "o1"), ("customer_id", Val.str "c1"),
     ("order_purchase_timestamp", Val.dt ⟨2017, 1, 2, 3, 4, 5⟩),
     ("order_approved_at", Val.str "2017-01-02 04:00:00"),
     ("order_delivered_carrier_date", Val.null),
     ("order_delivered_customer_date", Val.null),
     ("order_estimated_delivery_date", Val.str "2017-01-20")],
    [("order_id", Val.str "o2"), ("customer_id", Val.str "c2"),
     ("order_purchase_timestamp", Val.dt ⟨2017, 3, 4, 0, 0, 0⟩),
     ("order_approved_at", Val.null),
     ("order_delivered_carrier_date", Val.null),
     ("order_delivered_customer_date", Val.null),
     ("order_estimated_delivery_date", Val.null)]]⟩

/-- The raw-table dict as the caller sees it after the fact transformer:
only the orders entry changed (parsed timestamps). -/
def wTablesParsed : Tables :=
  [("olist_orders_dataset", wOrdersParsed), ("olist_order_items_dataset", wItems),
   ("olist_order_payments_dataset", wPayments),
   ("olist_order_reviews_dataset", wReviews)]

/-- The fact_orders output on `wTables`. -/
def wFact : DF :=
  ⟨["order_id", "customer_id", "order_purchase_timestamp", "order_approved_at",
    "order_delivered_carrier_date", "order_delivered_customer_date",
    "order_estimated_delivery_date", "product_id", "seller_id", "price",
    "freight_value", "payment_type", "payment_installments", "payment_value",
    "review_score"],
   [[("order_id", Val.str "o1"), ("customer_id", Val.str "c1"),
     ("order_purchase_timestamp", Val.dt ⟨2017, 1, 2, 3, 4, 5⟩),
     ("order_approved_at", Val.str "2017-01-02 04:00:00"),
     ("order_delivered_carrier_date", Val.null),
     ("order_delivered_customer_date", Val.null),
     ("order_estimated_delivery_date", Val.str "2017-01-20"),
     ("product_id", Val.str "p1"), ("seller_id", Val.str "s1"),
     ("price", Val.int 100), ("freight_value", Val.int 10),
     ("payment_type", Val.str "credit_card"),
     ("payment_installments", Val.int 2), ("payment_value", Val.int 110),
     ("review_score", Val.null)],
    [("order_id", Val.str "o2"), ("customer_id", Val.str "c2"),
     ("order_purchase_timestamp", Val.dt ⟨2017, 3, 4, 0, 0, 0⟩),
     ("order_approved_at", Val.null),
     ("order_delivered_carrier_date", Val.null),
     ("order_delivered_customer_date", Val.null),
     ("order_estimated_delivery_date", Val.null),
     ("product_id", Val.null), ("seller_id", Val.null), ("price", Val.null),
     ("freight_value", Val.null), ("payment_type", Val.null),
     ("payment_installments", Val.null), ("payment_value", Val.null),
     ("review_score", Val.null)]]⟩

/-- Witness for C5 on the concrete input `wTables`. -/
theorem fact_orders_exact_columns_witness :
    transform_fact_orders wTables = some (wTablesParsed, wFact) ∧
      (wFact.cols = factCols ∧ ∀ r ∈ wFact.rows, r.map Prod.fst = factCols) :=
  ⟨by decide, fact_orders_exact_columns wTables wTablesParsed wFact (by decide)⟩

/-- Witness for C6 on the concrete input `wTables`. -/
theorem fact_orders_numeric_or_null_witness :
    transform_fact_orders wTables = some (wTablesParsed, wFact) ∧
      ((∀ r ∈ wFact.rows,
        numOrNull (getVal r "payment_value") = true ∧
          numOrNull (getVal r "review_score") = true) ∧
      (∀ v : Val, numParse? v = none → coerceNum v = Val.null) ∧
      (∀ v : Val, numOrNull (coerceNum v) = true)) :=
  ⟨by decide, fact_orders_numeric_or_null wTables wTablesParsed wFact (by decide)⟩

/-! ## C4: fact_orders row count and unmatched orders -/

theorem countP_map_congr {α β : Type} (f : α → β) (l : List α) (p : β → Bool)
    (q : α → Bool) (h : ∀ a, p (f a) = q a) : (l.map f).countP p = l.countP q := by
  induction l with
  | nil => rfl
  | cons a l ih => rw [List.map_cons, List.countP_cons, List.countP_cons, ih, h]

theorem keys_nullRow (cs : List String) : (nullRow cs).map Prod.fst = cs := by
  induction cs with
  | nil => rfl
  | cons a cs ih =>
    show a :: (nullRow cs).map Prod.fst = a :: cs
    rw [ih]

theorem getVal_append_null_of_null {x : Row} {cs : List String} {c : String}
    (h : getVal x c = Val.null) : getVal (x ++ nullRow cs) c = Val.null := by
  rw [getVal_append]
  split
  · exact h
  · exact getVal_nullRow cs c

theorem forall₂_mem_right {α β : Type} {R : α → β → Prop} {l : List α}
    {l' : List β} (h : List.Forall₂ R l l') {b : β} (hb : b ∈ l') :
    ∃ a ∈ l, R a b := by
  induction h with
  | nil => simp at hb
  | cons hR hl ih =>
    rcases List.mem_cons.mp hb with rfl | hb'
    · exact ⟨_, List.mem_cons_self _ _, hR⟩
    · obtain ⟨a, ha, hab⟩ := ih hb'
      exact ⟨a, List.mem_cons_of_mem _ ha, hab⟩

/-- C4: whenever the fact transformer succeeds on a schema-conforming orders
table, fact_orders has at least as many rows as orders; and an order row
with zero matching items, payments and reviews appears exactly once, with
null in every item, payment and review column, under the claim's proviso
that those three tables have at most one row per order. -/
theorem fact_orders_count_and_unmatched_nulls
    (dfs dfs' : Tables) (fact orders items payments reviews : DF)
    (h : transform_fact_orders dfs = some (dfs', fact))
    (ho : lookupTable dfs "olist_orders_dataset" = some orders)
    (hi : lookupTable dfs "olist_order_items_dataset" = some items)
    (hp : lookupTable dfs "olist_order_payments_dataset" = some payments)
    (hrv : lookupTable dfs "olist_order_reviews_dataset" = some reviews)
    (hwfO : ∀ r ∈ orders.rows, r.map Prod.fst = orders.cols) :
    orders.rows.length ≤ fact.rows.length ∧
      ∀ oid : Val,
        items.rows.countP (fun r => getVal r "order_id" == oid) = 0 →
        payments.rows.countP (fun r => getVal r "order_id" == oid) = 0 →
        reviews.rows.countP (fun r => getVal r "order_id" == oid) = 0 →
        orders.rows.countP (fun r => getVal r "order_id" == oid) = 1 →
        (∀ oid' : Val,
          items.rows.countP (fun r => getVal r "order_id" == oid') ≤ 1 ∧
            payments.rows.countP (fun r => getVal r "order_id" == oid') ≤ 1 ∧
            reviews.rows.countP (fun r => getVal r "order_id" == oid') ≤ 1) →
        fact.rows.countP (fun r => getVal r "order_id" == oid) = 1 ∧
          ∀ r ∈ fact.rows, getVal r "order_id" = oid →
            ∀ c : String,
              c ∈ items.cols ∨ c ∈ payments.cols ∨ c ∈ reviews.cols →
              c ≠ "order_id" → getVal r c = Val.null := by
  obtain ⟨orders0, orders1, items0, payments0, reviews0, m1, m2, m3, projected,
    ho0, hparse, hdfs', hi0, hp0, hr0, hm1, hm2, hm3, hproj, hfact⟩ :=
    transform_fact_orders_spec h
  rw [ho] at ho0
  have he := Option.some.inj ho0
  subst he
  subst hdfs'
  rw [lookupTable_setTable_ne (by decide)] at hi0 hp0 hr0
  rw [hi] at hi0
  rw [hp] at hp0
  rw [hrv] at hr0
  have he := Option.some.inj hi0
  subst he
  have he := Option.some.inj hp0
  subst he
  have he := Option.some.inj hr0
  subst he
  subst hfact
  obtain ⟨hm1c, hm1r, hm1k1, hm1k2, hd1⟩ := merge_spec hm1
  obtain ⟨hm2c, hm2r, hm2k1, hm2k2, hd2⟩ := merge_spec hm2
  obtain ⟨hm3c, hm3r, hm3k1, hm3k2, hd3⟩ := merge_spec hm3
  obtain ⟨hpc, hpr, hpsub⟩ := project_spec hproj
  obtain ⟨ho1c, ho1f⟩ := parseCol_spec hparse
  have hlenf : (coerceColumn (coerceColumn projected "payment_value")
      "review_score").rows.length = m3.rows.length := by
    show ((projected.rows.map
      (fun r => setCol r "payment_value" (coerceNum (getVal r "payment_value")))).map
      (fun r => setCol r "review_score" (coerceNum (getVal r "review_score")))).length = _
    rw [List.length_map, List.length_map, hpr, List.length_map]
  constructor
  · calc orders.rows.length
        = orders1.rows.length := (length_parseCol hparse).symm
      _ ≤ m1.rows.length := by
          rw [hm1r]
          exact length_mergeRows_ge _ _ _ _
      _ ≤ m2.rows.length := by
          rw [hm2r]
          exact length_mergeRows_ge _ _ _ _
      _ ≤ m3.rows.length := by
          rw [hm3r]
          exact length_mergeRows_ge _ _ _ _
      _ = _ := hlenf.symm
  intro oid hci hcp hcr hco hmax
  have hcnt_o1 : orders1.rows.countP (fun r => getVal r "order_id" == oid) = 1 := by
    rw [countP_parseCol_ne (by decide) hparse (fun v => v == oid)]
    exact hco
  have hg2 : ∀ X : List Row,
      (X.map (fun r => setCol r "review_score"
        (coerceNum (getVal r "review_score")))).countP
          (fun r => getVal r "order_id" == oid) =
        X.countP (fun r => getVal r "order_id" == oid) := by
    intro X
    apply countP_map_congr
    intro a
    rw [getVal_setCol_ne _ _ (by decide)]
  have hg1 : ∀ X : List Row,
      (X.map (fun r => setCol r "payment_value"
        (coerceNum (getVal r "payment_value")))).countP
          (fun r => getVal r "order_id" == oid) =
        X.countP (fun r => getVal r "order_id" == oid) := by
    intro X
    apply countP_map_congr
    intro a
    rw [getVal_setCol_ne _ _ (by decide)]
  have hgproj : ∀ X : List Row,
      (X.map (projRow factCols)).countP (fun r => getVal r "order_id" == oid) =
        X.countP (fun r => getVal r "order_id" == oid) := by
    intro X
    apply countP_map_congr
    intro a
    rw [getVal_projRow, if_pos (by decide)]
  have hcnt3 : m3.rows.countP (fun r => getVal r "order_id" == oid) = 1 := by
    rw [hm3r, countP_mergeRows, hm2r, countP_mergeRows, hm1r, countP_mergeRows,
      hcnt_o1, hci, hcp, hcr]
    decide
  have hfc : (coerceColumn (coerceColumn projected "payment_value")
      "review_score").rows.countP (fun r => getVal r "order_id" == oid) =
      m3.rows.countP (fun r => getVal r "order_id" == oid) := by
    show ((projected.rows.map
      (fun r => setCol r "payment_value" (coerceNum (getVal r "payment_value")))).map
      (fun r => setCol r "review_score"
        (coerceNum (getVal r "review_score")))).countP
          (fun r => getVal r "order_id" == oid) = _
    rw [hg2, hg1, hpr, hgproj]
  refine ⟨hfc.trans hcnt3, ?_⟩
  intro r hr hroid c hc hcne
  have hr' : r ∈ ((projected.rows.map
      (fun r => setCol r "payment_value" (coerceNum (getVal r "payment_value")))).map
      (fun r => setCol r "review_score" (coerceNum (getVal r "review_score")))) := hr
  rw [List.mem_map] at hr'
  obtain ⟨r1, hr1, rfl⟩ := hr'
  rw [List.mem_map] at hr1
  obtain ⟨r0, hr0, rfl⟩ := hr1
  rw [hpr, List.mem_map] at hr0
  obtain ⟨mr, hmr, rfl⟩ := hr0
  have hmoid : getVal mr "order_id" = oid := by
    rw [← hroid, getVal_setCol_ne _ _ (by decide), getVal_setCol_ne _ _ (by decide),
      getVal_projRow, if_pos (by decide)]
  rw [hm3r] at hmr
  obtain ⟨l2, hl2, hl2oid, hl2e⟩ := mem_mergeRows_zero_match hcr hmr hmoid
  rw [hm2r] at hl2
  obtain ⟨l1, hl1, hl1oid, hl1e⟩ := mem_mergeRows_zero_match hcp hl2 hl2oid
  rw [hm1r] at hl1
  obtain ⟨l0, hl0, hl0oid, hl0e⟩ := mem_mergeRows_zero_match hci hl1 hl1oid
  have hkeys0 : l0.map Prod.fst = orders.cols := by
    obtain ⟨a, ha, v, hv, he⟩ := forall₂_mem_right ho1f hl0
    rw [he, keys_setCol]
    exact hwfO a ha
  have hnull : getVal mr c = Val.null := by
    subst hl2e
    subst hl1e
    subst hl0e
    rcases hc with hcI | hcP | hcR
    · have hc0 : c ∉ l0.map Prod.fst := by
        rw [hkeys0]
        intro hmem
        apply hcne
        apply hd1 c ?_ hcI
        rw [ho1c]
        exact hmem
      have h1null : getVal (l0 ++ nullRow (items.cols.erase "order_id")) c =
          Val.null := by
        rw [getVal_append, if_neg hc0, getVal_nullRow]
      exact getVal_append_null_of_null (getVal_append_null_of_null h1null)
    · have hc1 : c ∉ (l0 ++ nullRow (items.cols.erase "order_id")).map Prod.fst := by
        rw [List.map_append, keys_nullRow, List.mem_append, hkeys0]
        rintro (hcO | hcIe)
        · apply hcne
          apply hd2 c ?_ hcP
          rw [hm1c, List.mem_append]
          left
          rw [ho1c]
          exact hcO
        · apply hcne
          apply hd2 c ?_ hcP
          rw [hm1c, List.mem_append]
          right
          exact hcIe
      have h2null : getVal ((l0 ++ nullRow (items.cols.erase "order_id")) ++
          nullRow (payments.cols.erase "order_id")) c = Val.null := by
        rw [getVal_append, if_neg hc1, getVal_nullRow]
      exact getVal_append_null_of_null h2null
    · have hc2 : c ∉ ((l0 ++ nullRow (items.cols.erase "order_id")) ++
          nullRow (payments.cols.erase "order_id")).map Prod.fst := by
        rw [List.map_append, List.map_append, keys_nullRow, keys_nullRow, hkeys0,
          List.mem_append, List.mem_append]
        rintro ((hcO | hcIe) | hcPe)
        · apply hcne
          apply hd3 c ?_ hcR
          rw [hm2c, List.mem_append]
          left
          rw [hm1c, List.mem_append]
          left
          rw [ho1c]
          exact hcO
        · apply hcne
          apply hd3 c ?_ hcR
          rw [hm2c, List.mem_append]
          left
          rw [hm1c, List.mem_append]
          right
          exact hcIe
        · apply hcne
          apply hd3 c ?_ hcR
          rw [hm2c, List.mem_append]
          right
          exact hcPe
      rw [getVal_append, if_neg hc2, getVal_nullRow]
  have hx1c : getVal (projRow factCols mr) c = Val.null := by
    rw [getVal_projRow]
    by_cases hcf : c ∈ factCols
    · rw [if_pos hcf]
      exact hnull
    · rw [if_neg hcf]
  by_cases hcrs : c = "review_score"
  · subst hcrs
    rcases getVal_setCol_self
        (setCol (projRow factCols mr) "payment_value"
          (coerceNum (getVal (projRow factCols mr) "payment_value")))
        "review_score"
        (coerceNum (getVal
          (setCol (projRow factCols mr) "payment_value"
            (coerceNum (getVal (projRow factCols mr) "payment_value")))
          "review_score")) with he | he
    · rw [he, getVal_setCol_ne _ _ (by decide), hx1c]
      rfl
    · exact he
  · rw [getVal_setCol_ne _ _ hcrs]
    by_cases hcpv : c = "payment_value"
    · subst hcpv
      rcases getVal_setCol_self (projRow factCols mr) "payment_value"
          (coerceNum (getVal (projRow factCols mr) "payment_value")) with he | he
      · rw [he, hx1c]
        rfl
      · exact he
    · rw [getVal_setCol_ne _ _ hcpv]
      exact hx1c

/-- Witness for C4 on the concrete input `wTables` (order o2 has no item,
payment or review). -/
theorem fact_orders_count_and_unmatched_nulls_witness :
    transform_fact_orders wTables = some (wTablesParsed, wFact) ∧
      lookupTable wTables "olist_orders_dataset" = some wOrders ∧
      lookupTable wTables "olist_order_items_dataset" = some wItems ∧
      lookupTable wTables "olist_order_payments_dataset" = some wPayments ∧
      lookupTable wTables "olist_order_reviews_dataset" = some wReviews ∧
      (∀ r ∈ wOrders.rows, r.map Prod.fst = wOrders.cols) ∧
      (wOrders.rows.length ≤ wFact.rows.length ∧
        ∀ oid : Val,
          wItems.rows.countP (fun r => getVal r "order_id" == oid) = 0 →
          wPayments.rows.countP (fun r => getVal r "order_id" == oid) = 0 →
          wReviews.rows.countP (fun r => getVal r "order_id" == oid) = 0 →
          wOrders.rows.countP (fun r => getVal r "order_id" == oid) = 1 →
          (∀ oid' : Val,
            wItems.rows.countP (fun r => getVal r "order_id" == oid') ≤ 1 ∧
              wPayments.rows.countP (fun r => getVal r "order_id" == oid') ≤ 1 ∧
              wReviews.rows.countP (fun r => getVal r "order_id" == oid') ≤ 1) →
          wFact.rows.countP (fun r => getVal r "order_id" == oid) = 1 ∧
            ∀ r ∈ wFact.rows, getVal r "order_id" = oid →
              ∀ c : String,
                c ∈ wItems.cols ∨ c ∈ wPayments.cols ∨ c ∈ wReviews.cols →
                c ≠ "order_id" → getVal r c = Val.null) :=
  ⟨by decide, by decide, by decide, by decide, by decide, by decide,
    fact_orders_count_and_unmatched_nulls wTables wTablesParsed wFact wOrders
      wItems wPayments wReviews (by decide) (by decide) (by decide) (by decide)
      (by decide) (by decide)⟩

/-! ## C8: transformer purity -/

/-- C8 counterexample: the date transformer does not leave its input
unchanged — after the call, the caller's orders frame (`c3parsed`) differs
from the original (`c3orders`): the in-place
`orders_df['order_purchase_timestamp'] = pd.to_datetime(...)` replaced the
string timestamps with datetimes. -/
theorem transform_dim_date_mutates_input :
    (transform_dim_date c3orders).map Prod.fst = some c3parsed ∧
      c3parsed ≠ c3orders := by
  constructor
  · decide
  · decide

/-- C8 amended: the date and fact transformers are the only impure ones.
Each overwrites exactly the order_purchase_timestamp column of the raw
orders frame with parsed values (the date transformer on its argument, the
fact transformer on the orders entry of the table dict) and changes nothing
else; the customers, sellers and products transformers return fresh frames
and take no mutation channel at all. -/
theorem transformers_purity_amended :
    (∀ (o o1 d : DF), transform_dim_date o = some (o1, d) →
      o1.cols = o.cols ∧
        List.Forall₂
          (fun r r' => ∃ v,
            toDatetimeVal (getVal r "order_purchase_timestamp") = some v ∧
              r' = setCol r "order_purchase_timestamp" v)
          o.rows o1.rows ∧
        List.Forall₂
          (fun r r' => ∀ c : String,
            c ≠ "order_purchase_timestamp" → getVal r' c = getVal r c)
          o.rows o1.rows) ∧
      (∀ (dfs dfs1 : Tables) (f : DF),
        transform_fact_orders dfs = some (dfs1, f) →
        ∃ orders orders1 : DF,
          lookupTable dfs "olist_orders_dataset" = some orders ∧
            parseCol orders "order_purchase_timestamp" = some orders1 ∧
            dfs1 = setTable dfs "olist_orders_dataset" orders1 ∧
            ∀ name : String, name ≠ "olist_orders_dataset" →
              lookupTable dfs1 name = lookupTable dfs name) := by
  constructor
  · intro o o1 d h
    unfold transform_dim_date at h
    obtain ⟨x1, hx1, h2⟩ := option_bind_eq_some h
    have h3 := Option.some.inj h2
    injection h3 with h4 h5
    subst h4
    obtain ⟨hcols, hf⟩ := parseCol_spec hx1
    refine ⟨hcols, hf, ?_⟩
    apply hf.imp
    rintro a b ⟨v, -, rfl⟩ c hc
    exact getVal_setCol_ne _ _ hc
  · intro dfs dfs1 f h
    obtain ⟨orders, orders1, items, payments, reviews, m1, m2, m3, projected,
      ho0, hparse, hdfs', -, -, -, -, -, -, -, -⟩ := transform_fact_orders_spec h
    refine ⟨orders, orders1, ho0, hparse, hdfs', ?_⟩
    intro name hname
    rw [hdfs']
    exact lookupTable_setTable_ne hname

/-- Witness for the amended C8, at the concrete inputs `c3orders` (date
transformer) and `wTables` (fact transformer). -/
theorem transformers_purity_amended_witness :
    transform_dim_date c3orders = some (c3parsed, c3out) ∧
      (c3parsed.cols = c3orders.cols ∧
        List.Forall₂
          (fun r r' => ∃ v,
            toDatetimeVal (getVal r "order_purchase_timestamp") = some v ∧
              r' = setCol r "order_purchase_timestamp" v)
          c3orders.rows c3parsed.rows ∧
        List.Forall₂
          (fun r r' => ∀ c : String,
            c ≠ "order_purchase_timestamp" → getVal r' c = getVal r c)
          c3orders.rows c3parsed.rows) ∧
      transform_fact_orders wTables = some (wTablesParsed, wFact) ∧
      (∃ orders orders1 : DF,
        lookupTable wTables "olist_orders_dataset" = some orders ∧
          parseCol orders "order_purchase_timestamp" = some orders1 ∧
          wTablesParsed = setTable wTables "olist_orders_dataset" orders1 ∧
          ∀ name : String, name ≠ "olist_orders_dataset" →
            lookupTable wTablesParsed name = lookupTable wTables name) :=
  ⟨by decide,
    transformers_purity_amended.1 c3orders c3parsed c3out (by decide),
    by decide,
    transformers_purity_amended.2 wTables wTablesParsed wFact (by decide)⟩

/-! ## C7 and C9: the orchestrator failure boundary -/

/-- Concrete sellers table for the orchestrator witnesses. -/
def wSellers : DF :=
  ⟨["seller_id", "seller_city"],
   [[("seller_id", Val.str "s1"), ("seller_city", Val.str "sp")]]⟩

/-- A full extracted source schema for the orchestrator witnesses. -/
def oTables : Tables :=
  [("olist_customers_dataset", c1df), ("olist_sellers_dataset", wSellers),
   ("olist_products_dataset", c10p), ("product_category_name_translation", c10t),
   ("olist_orders_dataset", wOrders), ("olist_order_items_dataset", wItems),
   ("olist_order_payments_dataset", wPayments),
   ("olist_order_reviews_dataset", wReviews)]

/-- Failure injection: the target store rejects the third load. -/
def failDimProducts : String → Bool := fun name => name == "dim_products"

/-- The world reached when the third load fails on `oTables`: the first two
target tables are loaded, two log lines, two console lines. -/
def oW1 : World :=
  ⟨[("dim_customers", c1out), ("dim_sellers", wSellers)],
   ["INFO Loaded table: dim_customers", "INFO Loaded table: dim_sellers"],
   ["Loaded: dim_customers", "Loaded: dim_sellers"]⟩

/-- C7 counterexample: an exception in the extract phase is NOT caught at
main's boundary.  The module-level `dfs = extract_all_tables(...)` runs
outside the try block, so the exception propagates uncaught (the script's
result is the error itself — no world, no log record, no terse console
message). -/
theorem extract_failure_not_caught :
    scriptRun (Except.error "OperationalError: could not connect to server")
        (fun _ => false) =
      Except.error "OperationalError: could not connect to server" ∧
      (scriptRun (Except.error "OperationalError: could not connect to server")
        (fun _ => false)).isOk = false := by
  constructor
  · rfl
  · rfl

/-- C7 amended: any exception in a transform or a load is caught at main's
single boundary: the script returns normally, the remaining steps are
skipped (the result is exactly the handler applied to the state at the
raise), the log gains the failure record, the console gains the terse
message, and every table loaded by earlier steps is left in place; an
extract exception instead propagates uncaught, before main runs. -/
theorem orchestrator_boundary_amended (dfs : Tables) (loadFails : String → Bool)
    (hfail : ∃ e w1, runBody dfs loadFails emptyWorld = Except.error (e, w1)) :
    ∃ e w1, runBody dfs loadFails emptyWorld = Except.error (e, w1) ∧
      scriptRun (Except.ok dfs) loadFails = Except.ok (handleFailure e w1) ∧
      handleFailure e w1 =
        ⟨w1.target, w1.log ++ ["ERROR ETL job failed: " ++ e],
          w1.console ++ [terseMsg]⟩ := by
  obtain ⟨e, w1, hrb⟩ := hfail
  refine ⟨e, w1, hrb, ?_, rfl⟩
  show Except.ok (mainRun dfs loadFails) = _
  unfold mainRun
  rw [hrb]

/-- Witness for the amended C7: on `oTables` with the third load failing,
dim_customers and dim_sellers stay loaded, the failure is logged, the
console gets the terse message. -/
theorem orchestrator_boundary_amended_witness :
    (∃ e w1, runBody oTables failDimProducts emptyWorld = Except.error (e, w1)) ∧
      (∃ e w1, runBody oTables failDimProducts emptyWorld = Except.error (e, w1) ∧
        scriptRun (Except.ok oTables) failDimProducts =
          Except.ok (handleFailure e w1) ∧
        handleFailure e w1 =
          ⟨w1.target, w1.log ++ ["ERROR ETL job failed: " ++ e],
            w1.console ++ [terseMsg]⟩) :=
  ⟨⟨"write failed: dim_products", oW1, rfl⟩,
    orchestrator_boundary_amended oTables failDimProducts
      ⟨"write failed: dim_products", oW1, rfl⟩⟩

/-- C9: when an exception is raised during the transform or load phases,
main catches it and returns normally, so the whole script still finishes
with a success result (no distinct failure exit status). -/
theorem process_exits_normally_on_failure (dfs : Tables) (loadFails : String → Bool)
    (hfail : ∃ e w1, runBody dfs loadFails emptyWorld = Except.error (e, w1)) :
    scriptRun (Except.ok dfs) loadFails = Except.ok (mainRun dfs loadFails) ∧
      (scriptRun (Except.ok dfs) loadFails).isOk = true ∧
      ∃ e w1, runBody dfs loadFails emptyWorld = Except.error (e, w1) ∧
        mainRun dfs loadFails = handleFailure e w1 := by
  obtain ⟨e, w1, hrb⟩ := hfail
  refine ⟨rfl, rfl, e, w1, hrb, ?_⟩
  unfold mainRun
  rw [hrb]

/-- Witness for C9 on `oTables` with the third load failing. -/
theorem process_exits_normally_on_failure_witness :
    (∃ e w1, runBody oTables failDimProducts emptyWorld = Except.error (e, w1)) ∧
      (scriptRun (Except.ok oTables) failDimProducts =
          Except.ok (mainRun oTables failDimProducts) ∧
        (scriptRun (Except.ok oTables) failDimProducts).isOk = true ∧
        ∃ e w1, runBody oTables failDimProducts emptyWorld = Except.error (e, w1) ∧
          mainRun oTables failDimProducts = handleFailure e w1) :=
  ⟨⟨"write failed: dim_products", oW1, rfl⟩,
    process_exits_normally_on_failure oTables failDimProducts
      ⟨"write failed: dim_products", oW1, rfl⟩⟩

end Olist
